import Mathlib

/-!
Shallow embedding of the event scheduler declared in `src/Scheduler.hpp`
(class `Scheduler`): a fixed-capacity arena of event slots shared, through
intrusive doubly linked lists realised by index arrays, between one blank
(free) queue and four priority ready queues, plus the dispatch loop.

The header contains only declarations, so every function body below is
modelled from the specification (each such definition's doc comment starts
with "Modelled from the spec:"), while the data model — the arrays
`que_handler`, `que_arg`, `que_nextIndex`, `que_backIndex`, the queue header
struct `EventQueue`, the enum `EventPriority`, the handler/argument types and
the 8-bit index type — is taken from the source file.
-/

/-- Priority levels of `enum EventPriority` (src/Scheduler.hpp:18-23):
HIGHEST = 0, MIDHIGH = 1, MIDLOW = 2, LOWEST = 3; a smaller value is a
higher dispatch priority. -/
inductive EventPriority : Type
  | HIGHEST
  | MIDHIGH
  | MIDLOW
  | LOWEST
deriving DecidableEq

/-- Numeric value of the enum constant (src/Scheduler.hpp:19-22); lower rank
means higher priority. -/
def EventPriority.rank : EventPriority → Nat
  | .HIGHEST => 0
  | .MIDHIGH => 1
  | .MIDLOW => 2
  | .LOWEST => 3

/-- Handler pointers (`P_EventHandler`, src/Scheduler.hpp:41) are opaque to
the scheduler; only their identity matters (`deleteEvent` compares them),
so they are modelled as Nat identifiers. -/
abbrev P_EventHandler := Nat

/-- The 64-bit event argument (`EventArg`, src/Scheduler.hpp:31). The
scheduler only stores and copies it, never computes with it, so it is
modelled as a plain Nat value. -/
abbrev EventArg := Nat

/-- Dummy argument `EVENT_ARG_BRANK` (src/Scheduler.hpp:34). -/
def EVENT_ARG_BRANK : EventArg := 0

/-- Queue header `Scheduler::EventQueue` (src/Scheduler.hpp:126-131):
element count and the arena indices of the first and last elements; when
`count = 0` both indices hold the reserved invalid value. -/
structure EventQueue where
  count : Nat
  firstIndex : Nat
  lastIndex : Nat
deriving DecidableEq

/-- The scheduler's static state: the four arena arrays `que_handler`,
`que_arg`, `que_nextIndex`, `que_backIndex` (src/Scheduler.hpp:113-123), the
blank queue header `brankQue` and the per-priority headers `eventQue`
(src/Scheduler.hpp:134-137). The arena capacity `Cap` is supplied by the
external configuration header (`SchedulerConfig.hpp`, not part of this
repository) and is carried as a constant field; the arrays are modelled as
functions on Nat indices. -/
structure SchedState where
  Cap : Nat
  que_handler : Nat → P_EventHandler
  que_arg : Nat → EventArg
  que_nextIndex : Nat → Nat
  que_backIndex : Nat → Nat
  brankQue : EventQueue
  eventQue : EventPriority → EventQueue

/-- The reserved invalid ("sentinel") index: one value outside [0, Cap).
With the 8-bit index type `EventQueIndex` (src/Scheduler.hpp:46) this caps
the usable capacity at 255. It is modelled as the value `Cap` itself. -/
def SchedState.sent (s : SchedState) : Nat := s.Cap

/-- Identifier of one of the five virtual queues sharing the arena:
the blank (free) queue or one priority ready queue. -/
inductive QueueId : Type
  | brank : QueueId
  | level : EventPriority → QueueId
deriving DecidableEq

/-- Read the header of the identified queue. -/
def SchedState.getQ (s : SchedState) : QueueId → EventQueue
  | .brank => s.brankQue
  | .level p => s.eventQue p

/-- Replace the header of the identified queue. -/
def SchedState.setQ (s : SchedState) : QueueId → EventQueue → SchedState
  | .brank, q => { s with brankQue := q }
  | .level p, q => { s with eventQue := Function.update s.eventQue p q }

/-- Write one cell of the `que_nextIndex` array. -/
def SchedState.setNext (s : SchedState) (i v : Nat) : SchedState :=
  { s with que_nextIndex := Function.update s.que_nextIndex i v }

/-- Write one cell of the `que_backIndex` array. -/
def SchedState.setBack (s : SchedState) (i v : Nat) : SchedState :=
  { s with que_backIndex := Function.update s.que_backIndex i v }

/-- Write one cell of the `que_handler` array. -/
def SchedState.setHandler (s : SchedState) (i : Nat) (h : P_EventHandler) : SchedState :=
  { s with que_handler := Function.update s.que_handler i h }

/-- Write one cell of the `que_arg` array. -/
def SchedState.setArg (s : SchedState) (i : Nat) (a : EventArg) : SchedState :=
  { s with que_arg := Function.update s.que_arg i a }

/-- Modelled from the spec: `dequeue_from_head` (§4.1; only the declaration
`Scheduler::dequeueFromHead` appears at src/Scheduler.hpp:147). Removes and
returns the first element: `first` becomes the old first's `next` (or the
sentinel if the queue becomes empty, in which case `last` is also set to the
sentinel), the new first's `previous` becomes the sentinel, and the count is
decremented. Precondition `count > 0` (dequeuing from an empty queue is a
caller contract violation, §7). -/
def SchedState.dequeueFromHead (s : SchedState) (qi : QueueId) : Nat × SchedState :=
  let q := s.getQ qi
  let head := q.firstIndex
  if q.count ≤ 1 then
    (head, s.setQ qi ⟨q.count - 1, s.sent, s.sent⟩)
  else
    let newFirst := s.que_nextIndex head
    (head, (s.setBack newFirst s.sent).setQ qi ⟨q.count - 1, newFirst, q.lastIndex⟩)

/-- Modelled from the spec: `dequeue_from_tail` (§4.1; declaration at
src/Scheduler.hpp:155), symmetric to `dequeueFromHead`. -/
def SchedState.dequeueFromTail (s : SchedState) (qi : QueueId) : Nat × SchedState :=
  let q := s.getQ qi
  let tail := q.lastIndex
  if q.count ≤ 1 then
    (tail, s.setQ qi ⟨q.count - 1, s.sent, s.sent⟩)
  else
    let newLast := s.que_backIndex tail
    (tail, (s.setNext newLast s.sent).setQ qi ⟨q.count - 1, q.firstIndex, newLast⟩)

/-- Modelled from the spec: `dequeue_from_absolute_index` (§4.1; declaration
at src/Scheduler.hpp:164). Removes an arbitrary element by splicing its
neighbours together — the predecessor's `next` becomes its `next`, the
successor's `previous` becomes its `previous` — fixing `firstIndex` /
`lastIndex` when the removed element was an endpoint, and decrements the
count. Returns the removed index. -/
def SchedState.dequeueFromAbsoluteIndex (s : SchedState) (qi : QueueId) (i : Nat) :
    Nat × SchedState :=
  let q := s.getQ qi
  let p := s.que_backIndex i
  let n := s.que_nextIndex i
  let s1 := if i = q.firstIndex then s else s.setNext p n
  let s2 := if i = q.lastIndex then s1 else s1.setBack n p
  (i, s2.setQ qi
    { count := q.count - 1
      firstIndex := if i = q.firstIndex then n else q.firstIndex
      lastIndex := if i = q.lastIndex then p else q.lastIndex })

/-- Modelled from the spec: `enqueue_to_head` (§4.1; declaration at
src/Scheduler.hpp:173). Writes handler and payload into the slot, links it
before the current first element, updates `firstIndex` (and `lastIndex`
when the queue was empty) and increments the count. -/
def SchedState.enqueueToHead (s : SchedState) (qi : QueueId) (i : Nat)
    (h : P_EventHandler) (a : EventArg) : SchedState :=
  let q := s.getQ qi
  let s1 := ((((s.setHandler i h).setArg i a).setNext i q.firstIndex).setBack i s.sent)
  let s2 := if q.count = 0 then s1 else s1.setBack q.firstIndex i
  s2.setQ qi
    { count := q.count + 1
      firstIndex := i
      lastIndex := if q.count = 0 then i else q.lastIndex }

/-- Modelled from the spec: `enqueue_to_tail` (§4.1; declaration at
src/Scheduler.hpp:182), symmetric to `enqueueToHead`: links the slot after
the current last element. -/
def SchedState.enqueueToTail (s : SchedState) (qi : QueueId) (i : Nat)
    (h : P_EventHandler) (a : EventArg) : SchedState :=
  let q := s.getQ qi
  let s1 := ((((s.setHandler i h).setArg i a).setNext i s.sent).setBack i q.lastIndex)
  let s2 := if q.count = 0 then s1 else s1.setNext q.lastIndex i
  s2.setQ qi
    { count := q.count + 1
      firstIndex := if q.count = 0 then i else q.firstIndex
      lastIndex := i }

/-- Modelled from the spec: `enqueueToHeadOfBrankQueue` (§4.2; declaration at
src/Scheduler.hpp:196). Returns a slot to the free list by inserting it at
the head of the blank queue via `enqueue_to_head`; the slot's stored handler
and payload are replaced by dummy values (the blank queue's contents are
never read). -/
def SchedState.enqueueToHeadOfBrankQueue (s : SchedState) (i : Nat) : SchedState :=
  s.enqueueToHead .brank i 0 EVENT_ARG_BRANK

/-- Modelled from the spec: `addEvent` (§4.3; declaration at
src/Scheduler.hpp:78). If the free list is non-empty, acquire its head slot
via `dequeue_from_head`, populate it and append it to the tail of the ready
list of the given priority. The exhaustion policy when the free list is
empty is left open by the spec (§7); the model rejects the registration and
leaves the state unchanged. -/
def SchedState.addEvent (s : SchedState) (p : EventPriority)
    (h : P_EventHandler) (a : EventArg) : SchedState :=
  if s.brankQue.count = 0 then s
  else
    let r := s.dequeueFromHead .brank
    r.2.enqueueToTail (.level p) r.1 h a

/-- Scan of a chain for the first slot whose stored handler equals the given
one, following `que_nextIndex`, with explicit fuel (the queue's count). -/
def SchedState.findFrom (s : SchedState) (h : P_EventHandler) :
    Nat → Nat → Option Nat
  | 0, _ => none
  | fuel + 1, j =>
      if s.que_handler j = h then some j else s.findFrom h fuel (s.que_nextIndex j)

/-- Modelled from the spec: the scan inside the private
`deleteEvent(EventQueue*, P_EventHandler)` helper (declaration at
src/Scheduler.hpp:189): walk the queue from `firstIndex` and return the
first slot whose handler reference equals the argument, if any. -/
def SchedState.findInQueue (s : SchedState) (qi : QueueId) (h : P_EventHandler) :
    Option Nat :=
  s.findFrom h (s.getQ qi).count (s.getQ qi).firstIndex

/-- Modelled from the spec: the private per-queue
`deleteEvent(EventQueue*, P_EventHandler)` (§4.4; declaration at
src/Scheduler.hpp:189): remove the first matching slot via
`dequeue_from_absolute_index` and return it to the free list via
`enqueue_to_head`; no-op when there is no match. The handler is not
invoked and the payload is discarded. -/
def SchedState.deleteEventQ (s : SchedState) (qi : QueueId) (h : P_EventHandler) :
    SchedState :=
  match s.findInQueue qi h with
  | none => s
  | some j => ((s.dequeueFromAbsoluteIndex qi j).2).enqueueToHeadOfBrankQueue j

/-- Modelled from the spec: the priority-qualified overload
`deleteEvent(EventPriority, P_EventHandler)` (§4.4; declaration at
src/Scheduler.hpp:95): scan only the given priority's ready list. -/
def SchedState.deleteEventPrio (s : SchedState) (p : EventPriority)
    (h : P_EventHandler) : SchedState :=
  s.deleteEventQ (.level p) h

/-- Modelled from the spec: the priority-less overload
`deleteEvent(P_EventHandler)` (§4.4; declaration at src/Scheduler.hpp:85):
scan the four ready lists in priority order and remove only the first
matching slot overall; at most one slot is removed per call. -/
def SchedState.deleteEvent (s : SchedState) (h : P_EventHandler) : SchedState :=
  if (s.findInQueue (.level .HIGHEST) h).isSome then s.deleteEventQ (.level .HIGHEST) h
  else if (s.findInQueue (.level .MIDHIGH) h).isSome then s.deleteEventQ (.level .MIDHIGH) h
  else if (s.findInQueue (.level .MIDLOW) h).isSome then s.deleteEventQ (.level .MIDLOW) h
  else if (s.findInQueue (.level .LOWEST) h).isSome then s.deleteEventQ (.level .LOWEST) h
  else s

/-- Modelled from the spec: the queue-selection scan of one iteration of
`startDispatchEventLoop` (§4.6; declaration at src/Scheduler.hpp:70): the
highest-priority non-empty ready list, if any. -/
def SchedState.pickQueue (s : SchedState) : Option EventPriority :=
  if (s.eventQue .HIGHEST).count ≠ 0 then some .HIGHEST
  else if (s.eventQue .MIDHIGH).count ≠ 0 then some .MIDHIGH
  else if (s.eventQue .MIDLOW).count ≠ 0 then some .MIDLOW
  else if (s.eventQue .LOWEST).count ≠ 0 then some .LOWEST
  else none

/-- Modelled from the spec: one iteration of `startDispatchEventLoop` (§4.6;
declaration at src/Scheduler.hpp:70): for the highest-priority non-empty
ready list, dequeue its head slot, copy out handler and payload, return the
slot to the free list, and hand back the (priority, handler, payload) triple
to be invoked; when all four lists are empty, yield (no state change, no
invocation). The returned state is the one in which the handler then runs. -/
def SchedState.dispatchStep (s : SchedState) :
    Option (EventPriority × P_EventHandler × EventArg) × SchedState :=
  match s.pickQueue with
  | none => (none, s)
  | some p =>
      let r := s.dequeueFromHead (.level p)
      let h := r.2.que_handler r.1
      let a := r.2.que_arg r.1
      (some (p, h, a), r.2.enqueueToHeadOfBrankQueue r.1)

/-- `getEventFreeCapacity` (declaration at src/Scheduler.hpp:102).
Modelled from the spec: returns the free list's count; a pure query. -/
def SchedState.getEventFreeCapacity (s : SchedState) : Nat := s.brankQue.count

/-- `getEventCount` (declaration at src/Scheduler.hpp:109). Modelled from
the spec: returns the total count across the four ready lists; a pure query. -/
def SchedState.getEventCount (s : SchedState) : Nat :=
  (s.eventQue .HIGHEST).count + (s.eventQue .MIDHIGH).count +
    (s.eventQue .MIDLOW).count + (s.eventQue .LOWEST).count

/-- Modelled from the spec: `initializeStatic` (§6 startup hook; declaration
at src/Scheduler.hpp:65): all `Cap` slots start in the blank (free) queue,
chained in arena order, and the four ready lists are empty. -/
def initState (Cap : Nat) : SchedState :=
  { Cap := Cap
    que_handler := fun _ => 0
    que_arg := fun _ => EVENT_ARG_BRANK
    que_nextIndex := fun i => if i + 1 < Cap then i + 1 else Cap
    que_backIndex := fun i => if i = 0 then Cap else i - 1
    brankQue := if Cap = 0 then ⟨0, Cap, Cap⟩ else ⟨Cap, 0, Cap - 1⟩
    eventQue := fun _ => ⟨0, Cap, Cap⟩ }

/-- One externally triggered operation on the scheduler: a registration, a
cancellation (either overload), or one dispatch-loop iteration. Handlers
that themselves register or cancel events are covered because their calls
appear as further operations in the sequence. -/
inductive Op : Type
  | add (p : EventPriority) (h : P_EventHandler) (a : EventArg)
  | del (h : P_EventHandler)
  | delP (p : EventPriority) (h : P_EventHandler)
  | disp
deriving DecidableEq

/-- Effect of one operation on the scheduler state. -/
def SchedState.step (s : SchedState) : Op → SchedState
  | .add p h a => s.addEvent p h a
  | .del h => s.deleteEvent h
  | .delP p h => s.deleteEventPrio p h
  | .disp => s.dispatchStep.2

/-- Run a finite sequence of operations. -/
def runOps (s : SchedState) (ops : List Op) : SchedState :=
  ops.foldl SchedState.step s

/-- Conversion of an arena index to the `int8_t` parameter type of
`dequeueFromAbsoluteIndex` (src/Scheduler.hpp:164): two's-complement
wrap-around of the value into [-128, 127]. -/
def int8OfNat (n : Nat) : Int :=
  if n % 256 < 128 then ((n % 256 : Nat) : Int) else ((n % 256 : Nat) : Int) - 256

/-! ### Chain predicates over the arena link arrays -/

/-- Last element of a list, with a default (the sentinel of an empty chain). -/
def lastD : List Nat → Nat → Nat
  | [], d => d
  | [a], _ => a
  | _ :: b :: t, d => lastD (b :: t) d

@[simp] theorem lastD_nil (d : Nat) : lastD [] d = d := rfl

@[simp] theorem lastD_single (a d : Nat) : lastD [a] d = a := rfl

@[simp] theorem lastD_cons2 (a b d : Nat) (t : List Nat) :
    lastD (a :: b :: t) d = lastD (b :: t) d := rfl

theorem lastD_cons_of_ne_nil (a d : Nat) {l : List Nat} (h : l ≠ []) :
    lastD (a :: l) d = lastD l d := by
  cases l with
  | nil => exact absurd rfl h
  | cons b t => rfl

@[simp] theorem lastD_concat (l : List Nat) (x d : Nat) : lastD (l ++ [x]) d = x := by
  induction l with
  | nil => rfl
  | cons a t ih =>
      rw [List.cons_append, lastD_cons_of_ne_nil _ _ (by simp), ih]

theorem lastD_append {l2 : List Nat} (l1 : List Nat) (d : Nat) (h : l2 ≠ []) :
    lastD (l1 ++ l2) d = lastD l2 d := by
  induction l1 with
  | nil => rfl
  | cons a t ih =>
      rw [List.cons_append, lastD_cons_of_ne_nil _ _ (by simp [h]), ih]

theorem headD_append {l1 : List Nat} (l2 : List Nat) (d : Nat) (h : l1 ≠ []) :
    (l1 ++ l2).headD d = l1.headD d := by
  cases l1 with
  | nil => exact absurd rfl h
  | cons a t => rfl

theorem lastD_mem {l : List Nat} (d : Nat) (h : l ≠ []) : lastD l d ∈ l := by
  induction l with
  | nil => exact absurd rfl h
  | cons a t ih =>
      cases t with
      | nil => simp
      | cons b t2 => simpa using Or.inr (ih (by simp))

theorem headD_mem {l : List Nat} (d : Nat) (h : l ≠ []) : l.headD d ∈ l := by
  cases l with
  | nil => exact absurd rfl h
  | cons a t => simp

theorem lastD_irrel {l : List Nat} (d d' : Nat) (h : l ≠ []) : lastD l d = lastD l d' := by
  induction l with
  | nil => exact absurd rfl h
  | cons a t ih =>
      cases t with
      | nil => rfl
      | cons b t2 => simpa using ih (by simp)

/-- The doubly-linked-chain condition on a list of arena indices: every
consecutive pair (x, y) satisfies `que_nextIndex x = y` and
`que_backIndex y = x`. -/
def linked (next back : Nat → Nat) : List Nat → Prop
  | [] => True
  | [_] => True
  | a :: b :: t => (next a = b ∧ back b = a) ∧ linked next back (b :: t)

instance instDecidableLinked (next back : Nat → Nat) :
    (l : List Nat) → Decidable (linked next back l)
  | [] => isTrue (by simp [linked])
  | [_] => isTrue (by simp [linked])
  | a :: b :: t =>
      letI := instDecidableLinked next back (b :: t)
      decidable_of_iff ((next a = b ∧ back b = a) ∧ linked next back (b :: t))
        (by simp [linked])

@[simp] theorem linked_nil (next back : Nat → Nat) : linked next back [] := trivial

@[simp] theorem linked_single (next back : Nat → Nat) (a : Nat) :
    linked next back [a] := trivial

theorem linked_cons2_iff (next back : Nat → Nat) (a b : Nat) (t : List Nat) :
    linked next back (a :: b :: t) ↔
      (next a = b ∧ back b = a) ∧ linked next back (b :: t) := Iff.rfl

theorem linked_of_cons {next back : Nat → Nat} {a : Nat} {l : List Nat}
    (h : linked next back (a :: l)) : linked next back l := by
  cases l with
  | nil => trivial
  | cons b t => exact h.2

/-- A full queue-shape assertion: the header matches the chain's length and
endpoints, the boundary links hold the sentinel, and the chain is correctly
doubly linked. -/
def queueIs (next back : Nat → Nat) (sent : Nat) (q : EventQueue) (l : List Nat) : Prop :=
  q.count = l.length ∧
  q.firstIndex = l.headD sent ∧
  q.lastIndex = lastD l sent ∧
  (l = [] ∨ (back (l.headD sent) = sent ∧ next (lastD l sent) = sent)) ∧
  linked next back l

instance (next back : Nat → Nat) (sent : Nat) (q : EventQueue) (l : List Nat) :
    Decidable (queueIs next back sent q l) := by
  unfold queueIs; infer_instance

/-- The queue-shape assertion for one of the five queues of a state. -/
def queueIsAt (s : SchedState) (qi : QueueId) (l : List Nat) : Prop :=
  queueIs s.que_nextIndex s.que_backIndex s.sent (s.getQ qi) l

instance (s : SchedState) (qi : QueueId) (l : List Nat) :
    Decidable (queueIsAt s qi l) := by
  unfold queueIsAt; infer_instance

/-- Abstraction of the arena: the contents of the five queues as lists of
arena indices, in chain order. -/
structure Queues where
  blank : List Nat
  readyH : List Nat
  readyMH : List Nat
  readyML : List Nat
  readyL : List Nat
deriving DecidableEq

/-- The chain of the ready queue of one priority. -/
def Queues.ready (A : Queues) : EventPriority → List Nat
  | .HIGHEST => A.readyH
  | .MIDHIGH => A.readyMH
  | .MIDLOW => A.readyML
  | .LOWEST => A.readyL

/-- Replace the chain of the ready queue of one priority. -/
def Queues.setReady (A : Queues) : EventPriority → List Nat → Queues
  | .HIGHEST, l => { A with readyH := l }
  | .MIDHIGH, l => { A with readyMH := l }
  | .MIDLOW, l => { A with readyML := l }
  | .LOWEST, l => { A with readyL := l }

/-- The chain of any of the five queues. -/
def Queues.chain (A : Queues) : QueueId → List Nat
  | .brank => A.blank
  | .level p => A.ready p

/-- Replace the chain of any of the five queues. -/
def Queues.setChain (A : Queues) : QueueId → List Nat → Queues
  | .brank, l => { A with blank := l }
  | .level p, l => A.setReady p l

/-- Concatenation of the five chains; it must enumerate the whole arena. -/
def Queues.allIdx (A : Queues) : List Nat :=
  A.blank ++ A.readyH ++ A.readyMH ++ A.readyML ++ A.readyL

/-- The arena-wide invariant (§3): each of the five queues is a correctly
doubly linked chain matching its header, and the five chains together hold
every arena index exactly once. -/
def absState (s : SchedState) (A : Queues) : Prop :=
  queueIsAt s .brank A.blank ∧
  queueIsAt s (.level .HIGHEST) A.readyH ∧
  queueIsAt s (.level .MIDHIGH) A.readyMH ∧
  queueIsAt s (.level .MIDLOW) A.readyML ∧
  queueIsAt s (.level .LOWEST) A.readyL ∧
  A.allIdx.Perm (List.range s.Cap)

instance (s : SchedState) (A : Queues) : Decidable (absState s A) := by
  unfold absState; infer_instance

/-! ### Structural lemmas about `linked` -/

theorem linked_congr {next back next' back' : Nat → Nat} :
    ∀ l : List Nat, (∀ x ∈ l.dropLast, next' x = next x) →
      (∀ x ∈ l.tail, back' x = back x) → linked next back l → linked next' back' l
  | [], _, _, _ => trivial
  | [_], _, _, _ => trivial
  | a :: b :: t, hn, hb, h => by
      rw [linked_cons2_iff] at h ⊢
      refine ⟨⟨?_, ?_⟩, ?_⟩
      · rw [hn a (by simp), h.1.1]
      · rw [hb b (by simp), h.1.2]
      · exact linked_congr (b :: t)
          (fun x hx => hn x (by simp only [List.dropLast_cons₂, List.mem_cons]; right; exact hx))
          (fun x hx => hb x (by simp only [List.tail_cons] at hx ⊢; exact List.mem_cons_of_mem b hx))
          h.2

theorem linked_concat_iff {next back : Nat → Nat} (x d : Nat) :
    ∀ l : List Nat, l ≠ [] →
      (linked next back (l ++ [x]) ↔
        linked next back l ∧ next (lastD l d) = x ∧ back x = lastD l d)
  | [], h => absurd rfl h
  | [a], _ => by
      simp [linked, List.cons_append]
  | a :: b :: t, _ => by
      have ih := @linked_concat_iff next back x d (b :: t) (by simp)
      simp only [List.cons_append] at ih ⊢
      rw [linked_cons2_iff next back a b (t ++ [x]), ih,
        linked_cons2_iff next back a b t, lastD_cons2]
      tauto

theorem linked_append_cons_iff {next back : Nat → Nat} (x : Nat) :
    ∀ l1 l2 : List Nat,
      linked next back (l1 ++ x :: l2) ↔
        linked next back (l1 ++ [x]) ∧ linked next back (x :: l2)
  | [], l2 => by simp
  | [a], l2 => by
      simp [linked, List.cons_append]
  | a :: b :: t, l2 => by
      have ih := @linked_append_cons_iff next back x (b :: t) l2
      simp only [List.cons_append] at ih ⊢
      rw [linked_cons2_iff next back a b (t ++ x :: l2), ih,
        linked_cons2_iff next back a b (t ++ [x])]
      tauto

theorem lastD_not_mem_dropLast {l : List Nat} (d : Nat) (hnd : l.Nodup) (h : l ≠ []) :
    lastD l d ∉ l.dropLast := by
  induction l with
  | nil => exact absurd rfl h
  | cons a t ih =>
      cases t with
      | nil => simp
      | cons b t2 =>
          simp only [lastD_cons2, List.dropLast_cons₂, List.mem_cons]
          rintro (heq | hmem)
          · have : lastD (b :: t2) d ∈ b :: t2 := lastD_mem d (by simp)
            rw [heq] at this
            exact (List.nodup_cons.mp hnd).1 this
          · exact ih (List.nodup_cons.mp hnd).2 (by simp) hmem

/-! ### Pointwise effect of the state setters -/

@[simp] theorem setNext_handler (s : SchedState) (i v : Nat) :
    (s.setNext i v).que_handler = s.que_handler := rfl

@[simp] theorem setNext_arg (s : SchedState) (i v : Nat) :
    (s.setNext i v).que_arg = s.que_arg := rfl

@[simp] theorem setNext_next (s : SchedState) (i v : Nat) :
    (s.setNext i v).que_nextIndex = Function.update s.que_nextIndex i v := rfl

@[simp] theorem setNext_back (s : SchedState) (i v : Nat) :
    (s.setNext i v).que_backIndex = s.que_backIndex := rfl

@[simp] theorem setNext_Cap (s : SchedState) (i v : Nat) :
    (s.setNext i v).Cap = s.Cap := rfl

@[simp] theorem setNext_getQ (s : SchedState) (i v : Nat) (qi : QueueId) :
    (s.setNext i v).getQ qi = s.getQ qi := by cases qi <;> rfl

@[simp] theorem setBack_handler (s : SchedState) (i v : Nat) :
    (s.setBack i v).que_handler = s.que_handler := rfl

@[simp] theorem setBack_arg (s : SchedState) (i v : Nat) :
    (s.setBack i v).que_arg = s.que_arg := rfl

@[simp] theorem setBack_next (s : SchedState) (i v : Nat) :
    (s.setBack i v).que_nextIndex = s.que_nextIndex := rfl

@[simp] theorem setBack_back (s : SchedState) (i v : Nat) :
    (s.setBack i v).que_backIndex = Function.update s.que_backIndex i v := rfl

@[simp] theorem setBack_Cap (s : SchedState) (i v : Nat) :
    (s.setBack i v).Cap = s.Cap := rfl

@[simp] theorem setBack_getQ (s : SchedState) (i v : Nat) (qi : QueueId) :
    (s.setBack i v).getQ qi = s.getQ qi := by cases qi <;> rfl

@[simp] theorem setHandler_handler (s : SchedState) (i : Nat) (h : P_EventHandler) :
    (s.setHandler i h).que_handler = Function.update s.que_handler i h := rfl

@[simp] theorem setHandler_arg (s : SchedState) (i : Nat) (h : P_EventHandler) :
    (s.setHandler i h).que_arg = s.que_arg := rfl

@[simp] theorem setHandler_next (s : SchedState) (i : Nat) (h : P_EventHandler) :
    (s.setHandler i h).que_nextIndex = s.que_nextIndex := rfl

@[simp] theorem setHandler_back (s : SchedState) (i : Nat) (h : P_EventHandler) :
    (s.setHandler i h).que_backIndex = s.que_backIndex := rfl

@[simp] theorem setHandler_Cap (s : SchedState) (i : Nat) (h : P_EventHandler) :
    (s.setHandler i h).Cap = s.Cap := rfl

@[simp] theorem setHandler_getQ (s : SchedState) (i : Nat) (h : P_EventHandler) (qi : QueueId) :
    (s.setHandler i h).getQ qi = s.getQ qi := by cases qi <;> rfl

@[simp] theorem setArg_handler (s : SchedState) (i : Nat) (a : EventArg) :
    (s.setArg i a).que_handler = s.que_handler := rfl

@[simp] theorem setArg_arg (s : SchedState) (i : Nat) (a : EventArg) :
    (s.setArg i a).que_arg = Function.update s.que_arg i a := rfl

@[simp] theorem setArg_next (s : SchedState) (i : Nat) (a : EventArg) :
    (s.setArg i a).que_nextIndex = s.que_nextIndex := rfl

@[simp] theorem setArg_back (s : SchedState) (i : Nat) (a : EventArg) :
    (s.setArg i a).que_backIndex = s.que_backIndex := rfl

@[simp] theorem setArg_Cap (s : SchedState) (i : Nat) (a : EventArg) :
    (s.setArg i a).Cap = s.Cap := rfl

@[simp] theorem setArg_getQ (s : SchedState) (i : Nat) (a : EventArg) (qi : QueueId) :
    (s.setArg i a).getQ qi = s.getQ qi := by cases qi <;> rfl

@[simp] theorem setQ_handler (s : SchedState) (qi : QueueId) (q : EventQueue) :
    (s.setQ qi q).que_handler = s.que_handler := by cases qi <;> rfl

@[simp] theorem setQ_arg (s : SchedState) (qi : QueueId) (q : EventQueue) :
    (s.setQ qi q).que_arg = s.que_arg := by cases qi <;> rfl

@[simp] theorem setQ_next (s : SchedState) (qi : QueueId) (q : EventQueue) :
    (s.setQ qi q).que_nextIndex = s.que_nextIndex := by cases qi <;> rfl

@[simp] theorem setQ_back (s : SchedState) (qi : QueueId) (q : EventQueue) :
    (s.setQ qi q).que_backIndex = s.que_backIndex := by cases qi <;> rfl

@[simp] theorem setQ_Cap (s : SchedState) (qi : QueueId) (q : EventQueue) :
    (s.setQ qi q).Cap = s.Cap := by cases qi <;> rfl

@[simp] theorem getQ_setQ_same (s : SchedState) (qi : QueueId) (q : EventQueue) :
    (s.setQ qi q).getQ qi = q := by
  cases qi with
  | brank => rfl
  | level p => simp [SchedState.setQ, SchedState.getQ]

theorem getQ_setQ_ne (s : SchedState) {qi qi' : QueueId} (q : EventQueue)
    (h : qi' ≠ qi) : (s.setQ qi q).getQ qi' = s.getQ qi' := by
  cases qi with
  | brank =>
      cases qi' with
      | brank => exact absurd rfl h
      | level p' => rfl
  | level p =>
      cases qi' with
      | brank => rfl
      | level p' =>
          have hp : p' ≠ p := by intro he; exact h (by rw [he])
          simp [SchedState.setQ, SchedState.getQ, Function.update_noteq hp]

@[simp] theorem sent_setQ (s : SchedState) (qi : QueueId) (q : EventQueue) :
    (s.setQ qi q).sent = s.sent := by cases qi <;> rfl

@[simp] theorem sent_setNext (s : SchedState) (i v : Nat) :
    (s.setNext i v).sent = s.sent := rfl

@[simp] theorem sent_setBack (s : SchedState) (i v : Nat) :
    (s.setBack i v).sent = s.sent := rfl

@[simp] theorem sent_setHandler (s : SchedState) (i : Nat) (h : P_EventHandler) :
    (s.setHandler i h).sent = s.sent := rfl

@[simp] theorem sent_setArg (s : SchedState) (i : Nat) (a : EventArg) :
    (s.setArg i a).sent = s.sent := rfl

/-! ### Frame lemmas for queue shapes -/

theorem queueIs_congr {next back next' back' : Nat → Nat} {sent : Nat} {q : EventQueue}
    {l : List Nat}
    (hn : ∀ x ∈ l, next' x = next x) (hb : ∀ x ∈ l, back' x = back x)
    (hq : queueIs next back sent q l) : queueIs next' back' sent q l := by
  obtain ⟨h1, h2, h3, h4, h5⟩ := hq
  refine ⟨h1, h2, h3, ?_, ?_⟩
  · rcases h4 with h | ⟨hb0, hn0⟩
    · exact Or.inl h
    · rcases eq_or_ne l [] with rfl | hne
      · exact Or.inl rfl
      · exact Or.inr ⟨by rw [hb _ (headD_mem _ hne), hb0], by rw [hn _ (lastD_mem _ hne), hn0]⟩
  · exact linked_congr l (fun x hx => hn x (List.dropLast_subset _ hx))
      (fun x hx => hb x (List.mem_of_mem_tail hx)) h5

theorem queueIsAt_frame {s s' : SchedState} {qi : QueueId} {l : List Nat}
    (hq : queueIsAt s qi l)
    (hn : ∀ x ∈ l, s'.que_nextIndex x = s.que_nextIndex x)
    (hb : ∀ x ∈ l, s'.que_backIndex x = s.que_backIndex x)
    (hQ : s'.getQ qi = s.getQ qi) (hsent : s'.sent = s.sent) :
    queueIsAt s' qi l := by
  unfold queueIsAt at hq ⊢
  rw [hQ, hsent]
  exact queueIs_congr hn hb hq

/-! ### Explicit shapes of the list primitives -/

theorem dequeueFromHead_eq_one (s : SchedState) (qi : QueueId)
    (hc : (s.getQ qi).count ≤ 1) :
    s.dequeueFromHead qi =
      ((s.getQ qi).firstIndex, s.setQ qi ⟨(s.getQ qi).count - 1, s.sent, s.sent⟩) := by
  simp [SchedState.dequeueFromHead, hc]

theorem dequeueFromHead_eq_many (s : SchedState) (qi : QueueId)
    (hc : ¬ (s.getQ qi).count ≤ 1) :
    s.dequeueFromHead qi =
      ((s.getQ qi).firstIndex,
        (s.setBack (s.que_nextIndex (s.getQ qi).firstIndex) s.sent).setQ qi
          ⟨(s.getQ qi).count - 1, s.que_nextIndex (s.getQ qi).firstIndex,
            (s.getQ qi).lastIndex⟩) := by
  simp [SchedState.dequeueFromHead, hc]

theorem enqueueToTail_eq_zero (s : SchedState) (qi : QueueId) (i : Nat)
    (h : P_EventHandler) (a : EventArg) (hc : (s.getQ qi).count = 0) :
    s.enqueueToTail qi i h a =
      ((((s.setHandler i h).setArg i a).setNext i s.sent).setBack i
          (s.getQ qi).lastIndex).setQ qi ⟨1, i, i⟩ := by
  simp [SchedState.enqueueToTail, hc]

theorem enqueueToTail_eq_pos (s : SchedState) (qi : QueueId) (i : Nat)
    (h : P_EventHandler) (a : EventArg) (hc : (s.getQ qi).count ≠ 0) :
    s.enqueueToTail qi i h a =
      (((((s.setHandler i h).setArg i a).setNext i s.sent).setBack i
          (s.getQ qi).lastIndex).setNext (s.getQ qi).lastIndex i).setQ qi
        ⟨(s.getQ qi).count + 1, (s.getQ qi).firstIndex, i⟩ := by
  simp [SchedState.enqueueToTail, hc]

theorem enqueueToHead_eq_zero (s : SchedState) (qi : QueueId) (i : Nat)
    (h : P_EventHandler) (a : EventArg) (hc : (s.getQ qi).count = 0) :
    s.enqueueToHead qi i h a =
      ((((s.setHandler i h).setArg i a).setNext i (s.getQ qi).firstIndex).setBack i
          s.sent).setQ qi ⟨1, i, i⟩ := by
  simp [SchedState.enqueueToHead, hc]

theorem enqueueToHead_eq_pos (s : SchedState) (qi : QueueId) (i : Nat)
    (h : P_EventHandler) (a : EventArg) (hc : (s.getQ qi).count ≠ 0) :
    s.enqueueToHead qi i h a =
      (((((s.setHandler i h).setArg i a).setNext i (s.getQ qi).firstIndex).setBack i
          s.sent).setBack (s.getQ qi).firstIndex i).setQ qi
        ⟨(s.getQ qi).count + 1, i, (s.getQ qi).lastIndex⟩ := by
  simp [SchedState.enqueueToHead, hc]

/-! ### Behaviour of the list primitives on well-formed chains -/

theorem dequeueFromHead_spec {s : SchedState} {qi : QueueId} {a : Nat} {l : List Nat}
    (hq : queueIsAt s qi (a :: l)) (hnd : (a :: l).Nodup) :
    (s.dequeueFromHead qi).1 = a ∧
    queueIsAt (s.dequeueFromHead qi).2 qi l ∧
    (s.dequeueFromHead qi).2.que_handler = s.que_handler ∧
    (s.dequeueFromHead qi).2.que_arg = s.que_arg ∧
    (s.dequeueFromHead qi).2.que_nextIndex = s.que_nextIndex ∧
    (∀ j, j ≠ l.headD s.sent → (s.dequeueFromHead qi).2.que_backIndex j = s.que_backIndex j) ∧
    (∀ qi', qi' ≠ qi → (s.dequeueFromHead qi).2.getQ qi' = s.getQ qi') ∧
    (s.dequeueFromHead qi).2.Cap = s.Cap := by
  obtain ⟨hcount, hfirst, hlast, hbound, hlink⟩ := hq
  have hfa : (s.getQ qi).firstIndex = a := by simpa using hfirst
  cases l with
  | nil =>
      have hc : (s.getQ qi).count ≤ 1 := by simp [hcount]
      rw [dequeueFromHead_eq_one s qi hc]
      refine ⟨hfa, ?_, by simp, by simp, by simp, fun j _ => by simp,
        fun qi' hne => getQ_setQ_ne s _ hne, by simp⟩
      simp [queueIsAt, queueIs, hcount]
  | cons b t =>
      have hnab : s.que_nextIndex a = b := hlink.1.1
      have hc : ¬ (s.getQ qi).count ≤ 1 := by simp [hcount]
      rw [dequeueFromHead_eq_many s qi hc, hfa, hnab]
      have hbt : b ∉ t := (List.nodup_cons.mp (List.nodup_cons.mp hnd).2).1
      refine ⟨rfl, ?_, by simp, by simp, by simp,
        fun j hj => by
          have hjb : j ≠ b := by simpa using hj
          simp [Function.update_noteq hjb],
        fun qi' hne => by
          rw [getQ_setQ_ne _ _ hne]
          simp, by simp⟩
      refine ⟨?_, ?_, ?_, ?_, ?_⟩
      · simp [hcount]
      · simp
      · simp only [getQ_setQ_same, sent_setQ, sent_setBack]
        rw [hlast, lastD_cons2]
      · refine Or.inr ⟨?_, ?_⟩
        · simp
        · have hb2 := (hbound.resolve_left (by simp)).2
          simpa using hb2
      · exact linked_congr (b :: t) (fun x _ => by simp)
          (fun x hx => by
            have hxb : x ≠ b := fun he => hbt (he ▸ hx)
            simp [Function.update_noteq hxb])
          (linked_of_cons hlink)

@[simp] theorem headD_append_cons (a d : Nat) (l l2 : List Nat) :
    ((a :: l) ++ l2).headD d = a := rfl

theorem enqueueToTail_spec {s : SchedState} {qi : QueueId} {l : List Nat} {i : Nat}
    (hq : queueIsAt s qi l) (hnd : l.Nodup) (hi : i ∉ l)
    (h : P_EventHandler) (a : EventArg) :
    queueIsAt (s.enqueueToTail qi i h a) qi (l ++ [i]) ∧
    (s.enqueueToTail qi i h a).que_handler = Function.update s.que_handler i h ∧
    (s.enqueueToTail qi i h a).que_arg = Function.update s.que_arg i a ∧
    (∀ j, j ≠ i → j ≠ lastD l s.sent →
      (s.enqueueToTail qi i h a).que_nextIndex j = s.que_nextIndex j) ∧
    (∀ j, j ≠ i → (s.enqueueToTail qi i h a).que_backIndex j = s.que_backIndex j) ∧
    (∀ qi', qi' ≠ qi → (s.enqueueToTail qi i h a).getQ qi' = s.getQ qi') ∧
    (s.enqueueToTail qi i h a).Cap = s.Cap := by
  obtain ⟨hcount, hfirst, hlast, hbound, hlink⟩ := hq
  cases l with
  | nil =>
      have hc : (s.getQ qi).count = 0 := by simpa using hcount
      rw [enqueueToTail_eq_zero s qi i h a hc, hlast]
      refine ⟨?_, by simp, by simp,
        fun j hj _ => by simp [Function.update_noteq hj],
        fun j hj => by simp [Function.update_noteq hj],
        fun qi' hne => by rw [getQ_setQ_ne _ _ hne]; simp, by simp⟩
      refine ⟨by simp, by simp, by simp, Or.inr ⟨?_, ?_⟩, by simp [linked]⟩
      · simp [lastD_nil]
      · simp
  | cons c t =>
      have hc : (s.getQ qi).count ≠ 0 := by simp [hcount]
      have hlmem : lastD (c :: t) s.sent ∈ c :: t := lastD_mem _ (by simp)
      have hil : i ≠ lastD (c :: t) s.sent := fun he => hi (he ▸ hlmem)
      have hic : i ≠ c := fun he => hi (by simp [he])
      simp only [List.headD_cons] at hfirst
      rw [enqueueToTail_eq_pos s qi i h a hc, hlast, hfirst]
      refine ⟨?_, by simp, by simp, ?_, ?_,
        fun qi' hne => by rw [getQ_setQ_ne _ _ hne]; simp, by simp⟩
      · -- the queue shape for the chain (c :: t) ++ [i]
        refine ⟨?_, ?_, ?_, Or.inr ⟨?_, ?_⟩, ?_⟩
        · simp [hcount]
        · simp only [getQ_setQ_same, headD_append_cons]
        · simp only [getQ_setQ_same, lastD_concat]
        · simp only [headD_append_cons, setQ_back, setNext_back, setBack_back, setArg_back,
            setHandler_back, sent_setQ, sent_setNext, sent_setBack, sent_setArg,
            sent_setHandler]
          rw [Function.update_noteq (Ne.symm hic)]
          have := (hbound.resolve_left (by simp)).1
          simpa using this
        · simp only [lastD_concat, setQ_next, setNext_next, setBack_next, setArg_next,
            setHandler_next, sent_setQ, sent_setNext, sent_setBack, sent_setArg,
            sent_setHandler]
          rw [Function.update_noteq hil, Function.update_same]
        · rw [linked_concat_iff i s.sent (c :: t) (by simp)]
          refine ⟨?_, ?_, ?_⟩
          · refine linked_congr (c :: t) ?_ ?_ hlink
            · intro x hx
              have hxi : x ≠ i := fun he => hi (he ▸ List.dropLast_subset _ hx)
              have hxl : x ≠ lastD (c :: t) s.sent := by
                intro he
                exact lastD_not_mem_dropLast s.sent hnd (by simp) (he ▸ hx)
              simp [Function.update_noteq hxl, Function.update_noteq hxi]
            · intro x hx
              have hxi : x ≠ i := fun he => hi (he ▸ List.mem_of_mem_tail hx)
              simp [Function.update_noteq hxi]
          · simp only [setQ_next, setNext_next, setBack_next, setArg_next, setHandler_next]
            rw [Function.update_same]
          · simp only [setQ_back, setNext_back, setBack_back, setArg_back, setHandler_back]
            rw [Function.update_same]
      · intro j hj hjl
        simp [Function.update_noteq hjl, Function.update_noteq hj]
      · intro j hj
        simp [Function.update_noteq hj]

theorem enqueueToHead_spec {s : SchedState} {qi : QueueId} {l : List Nat} {i : Nat}
    (hq : queueIsAt s qi l) (hnd : l.Nodup) (hi : i ∉ l)
    (h : P_EventHandler) (a : EventArg) :
    queueIsAt (s.enqueueToHead qi i h a) qi (i :: l) ∧
    (s.enqueueToHead qi i h a).que_handler = Function.update s.que_handler i h ∧
    (s.enqueueToHead qi i h a).que_arg = Function.update s.que_arg i a ∧
    (∀ j, j ≠ i → (s.enqueueToHead qi i h a).que_nextIndex j = s.que_nextIndex j) ∧
    (∀ j, j ≠ i → j ≠ l.headD s.sent →
      (s.enqueueToHead qi i h a).que_backIndex j = s.que_backIndex j) ∧
    (∀ qi', qi' ≠ qi → (s.enqueueToHead qi i h a).getQ qi' = s.getQ qi') ∧
    (s.enqueueToHead qi i h a).Cap = s.Cap := by
  obtain ⟨hcount, hfirst, hlast, hbound, hlink⟩ := hq
  cases l with
  | nil =>
      have hc : (s.getQ qi).count = 0 := by simpa using hcount
      rw [enqueueToHead_eq_zero s qi i h a hc, hfirst]
      refine ⟨?_, by simp, by simp,
        fun j hj => by simp [Function.update_noteq hj],
        fun j hj _ => by simp [Function.update_noteq hj],
        fun qi' hne => by rw [getQ_setQ_ne _ _ hne]; simp, by simp⟩
      refine ⟨by simp, by simp, by simp, Or.inr ⟨?_, ?_⟩, by simp [linked]⟩
      · simp
      · simp
  | cons c t =>
      have hc : (s.getQ qi).count ≠ 0 := by simp [hcount]
      have hlmem : lastD (c :: t) s.sent ∈ c :: t := lastD_mem _ (by simp)
      have hil : i ≠ lastD (c :: t) s.sent := fun he => hi (he ▸ hlmem)
      have hic : i ≠ c := fun he => hi (by simp [he])
      have hct : c ∉ t := (List.nodup_cons.mp hnd).1
      simp only [List.headD_cons] at hfirst
      rw [enqueueToHead_eq_pos s qi i h a hc, hfirst, hlast]
      refine ⟨?_, by simp, by simp, ?_, ?_,
        fun qi' hne => by rw [getQ_setQ_ne _ _ hne]; simp, by simp⟩
      · refine ⟨?_, ?_, ?_, Or.inr ⟨?_, ?_⟩, ?_⟩
        · simp [hcount]
        · simp
        · simp only [getQ_setQ_same, sent_setQ, sent_setBack, sent_setNext, sent_setArg,
            sent_setHandler, lastD_cons2]
        · simp only [List.headD_cons, setQ_back, setNext_back, setBack_back, setArg_back,
            setHandler_back, sent_setQ, sent_setNext, sent_setBack, sent_setArg,
            sent_setHandler]
          rw [Function.update_noteq hic, Function.update_same]
        · simp only [lastD_cons2, setQ_next, setNext_next, setBack_next, setArg_next,
            setHandler_next, sent_setQ, sent_setNext, sent_setBack, sent_setArg,
            sent_setHandler]
          rw [Function.update_noteq (Ne.symm hil)]
          exact (hbound.resolve_left (by simp)).2
        · rw [linked_cons2_iff]
          refine ⟨⟨?_, ?_⟩, ?_⟩
          · simp only [setQ_next, setNext_next, setBack_next, setArg_next, setHandler_next]
            rw [Function.update_same]
          · simp only [setQ_back, setNext_back, setBack_back, setArg_back, setHandler_back]
            rw [Function.update_same]
          · refine linked_congr (c :: t) ?_ ?_ hlink
            · intro x hx
              have hxi : x ≠ i := fun he => hi (he ▸ List.dropLast_subset _ hx)
              simp [Function.update_noteq hxi]
            · intro x hx
              have hxi : x ≠ i := fun he => hi (he ▸ List.mem_of_mem_tail hx)
              have hxc : x ≠ c := fun he => hct (he ▸ hx)
              simp [Function.update_noteq hxi, Function.update_noteq hxc]
      · intro j hj
        simp [Function.update_noteq hj]
      · intro j hj hjc
        simp only [List.headD_cons] at hjc
        simp [Function.update_noteq hj, Function.update_noteq hjc]

theorem dequeueFromAbsoluteIndex_eq_tt (s : SchedState) (qi : QueueId) (i : Nat)
    (h1 : i = (s.getQ qi).firstIndex) (h2 : i = (s.getQ qi).lastIndex) :
    s.dequeueFromAbsoluteIndex qi i =
      (i, s.setQ qi
        ⟨(s.getQ qi).count - 1, s.que_nextIndex i, s.que_backIndex i⟩) := by
  simp only [SchedState.dequeueFromAbsoluteIndex, if_pos h1, if_pos h2]

theorem dequeueFromAbsoluteIndex_eq_tf (s : SchedState) (qi : QueueId) (i : Nat)
    (h1 : i = (s.getQ qi).firstIndex) (h2 : ¬ i = (s.getQ qi).lastIndex) :
    s.dequeueFromAbsoluteIndex qi i =
      (i, (s.setBack (s.que_nextIndex i) (s.que_backIndex i)).setQ qi
        ⟨(s.getQ qi).count - 1, s.que_nextIndex i, (s.getQ qi).lastIndex⟩) := by
  simp only [SchedState.dequeueFromAbsoluteIndex, if_pos h1, if_neg h2]

theorem dequeueFromAbsoluteIndex_eq_ft (s : SchedState) (qi : QueueId) (i : Nat)
    (h1 : ¬ i = (s.getQ qi).firstIndex) (h2 : i = (s.getQ qi).lastIndex) :
    s.dequeueFromAbsoluteIndex qi i =
      (i, ((s.setNext (s.que_backIndex i) (s.que_nextIndex i))).setQ qi
        ⟨(s.getQ qi).count - 1, (s.getQ qi).firstIndex, s.que_backIndex i⟩) := by
  simp only [SchedState.dequeueFromAbsoluteIndex, if_neg h1, if_pos h2]

theorem dequeueFromAbsoluteIndex_eq_ff (s : SchedState) (qi : QueueId) (i : Nat)
    (h1 : ¬ i = (s.getQ qi).firstIndex) (h2 : ¬ i = (s.getQ qi).lastIndex) :
    s.dequeueFromAbsoluteIndex qi i =
      (i, ((s.setNext (s.que_backIndex i) (s.que_nextIndex i)).setBack
            (s.que_nextIndex i) (s.que_backIndex i)).setQ qi
        ⟨(s.getQ qi).count - 1, (s.getQ qi).firstIndex, (s.getQ qi).lastIndex⟩) := by
  simp only [SchedState.dequeueFromAbsoluteIndex, if_neg h1, if_neg h2]

theorem dequeueFromAbsoluteIndex_spec {s : SchedState} {qi : QueueId}
    {l1 l2 : List Nat} {i : Nat}
    (hq : queueIsAt s qi (l1 ++ i :: l2)) (hnd : (l1 ++ i :: l2).Nodup) :
    (s.dequeueFromAbsoluteIndex qi i).1 = i ∧
    queueIsAt (s.dequeueFromAbsoluteIndex qi i).2 qi (l1 ++ l2) ∧
    (s.dequeueFromAbsoluteIndex qi i).2.que_handler = s.que_handler ∧
    (s.dequeueFromAbsoluteIndex qi i).2.que_arg = s.que_arg ∧
    (∀ j, j ≠ lastD l1 s.sent →
      (s.dequeueFromAbsoluteIndex qi i).2.que_nextIndex j = s.que_nextIndex j) ∧
    (∀ j, j ≠ l2.headD s.sent →
      (s.dequeueFromAbsoluteIndex qi i).2.que_backIndex j = s.que_backIndex j) ∧
    (∀ qi', qi' ≠ qi → (s.dequeueFromAbsoluteIndex qi i).2.getQ qi' = s.getQ qi') ∧
    (s.dequeueFromAbsoluteIndex qi i).2.Cap = s.Cap := by
  obtain ⟨hcount, hfirst, hlast, hbound, hlink⟩ := hq
  have hndA := List.nodup_append.mp hnd
  have hl1nd : l1.Nodup := hndA.1
  have hil2 : i ∉ l2 := (List.nodup_cons.mp hndA.2.1).1
  have hl2nd : l2.Nodup := (List.nodup_cons.mp hndA.2.1).2
  have hdisj : l1.Disjoint (i :: l2) := hndA.2.2
  have hbig := (linked_append_cons_iff i l1 l2).mp hlink
  have hlink1 := hbig.1
  have hlink2 := hbig.2
  have hbnd := hbound.resolve_left (by simp)
  cases l1 with
  | nil =>
      have hfa : (s.getQ qi).firstIndex = i := by simpa using hfirst
      have hbacki : s.que_backIndex i = s.sent := by simpa using hbnd.1
      cases l2 with
      | nil =>
          have hla : (s.getQ qi).lastIndex = i := by simpa using hlast
          have hnexti : s.que_nextIndex i = s.sent := by simpa using hbnd.2
          rw [dequeueFromAbsoluteIndex_eq_tt s qi i hfa.symm hla.symm]
          refine ⟨rfl, ?_, by simp, by simp, fun j _ => by simp, fun j _ => by simp,
            fun qi' hne => getQ_setQ_ne s _ hne, by simp⟩
          refine ⟨?_, ?_, ?_, Or.inl (by simp), by simp [linked]⟩
          · simpa using hcount.symm ▸ (by simp [hcount] : (s.getQ qi).count - 1 = 0)
          · simp [hnexti]
          · simp [hbacki]
      | cons c2 t2 =>
          have hc2mem : lastD (c2 :: t2) s.sent ∈ c2 :: t2 := lastD_mem _ (by simp)
          have hla : (s.getQ qi).lastIndex = lastD (c2 :: t2) s.sent := by simpa using hlast
          have hcond2 : ¬ i = (s.getQ qi).lastIndex := by
            rw [hla]; exact fun he => hil2 (he ▸ hc2mem)
          have hnexti : s.que_nextIndex i = c2 := hlink2.1.1
          have hc2t2 : c2 ∉ t2 := (List.nodup_cons.mp hl2nd).1
          rw [dequeueFromAbsoluteIndex_eq_tf s qi i hfa.symm hcond2, hnexti, hbacki, hla]
          refine ⟨rfl, ?_, by simp, by simp, fun j _ => by simp, ?_,
            fun qi' hne => by rw [getQ_setQ_ne _ _ hne]; simp, by simp⟩
          · refine ⟨?_, ?_, ?_, Or.inr ⟨?_, ?_⟩, ?_⟩
            · simp only [getQ_setQ_same, List.nil_append, List.length_cons] at hcount ⊢
              omega
            · simp
            · simp
            · simp
            · have h2 := hbnd.2
              simp only [List.nil_append, lastD_cons2] at h2
              simpa using h2
            · refine linked_congr (c2 :: t2) (fun x _ => by simp) ?_ (linked_of_cons hlink2)
              intro x hx
              have hxc : x ≠ c2 := fun he => hc2t2 (he ▸ hx)
              simp [Function.update_noteq hxc]
          · intro j hj
            simp only [List.headD_cons] at hj
            simp [Function.update_noteq hj]
  | cons c1 t1 =>
      have hic1 : i ≠ c1 := fun he => hdisj (show i ∈ c1 :: t1 by simp [he]) (by simp)
      have hfa : (s.getQ qi).firstIndex = c1 := by simpa using hfirst
      have hcond1 : ¬ i = (s.getQ qi).firstIndex := by rw [hfa]; exact hic1
      have hl1ne : (c1 :: t1) ≠ [] := by simp
      have hcc := (linked_concat_iff i s.sent (c1 :: t1) hl1ne).mp hlink1
      have hbacki : s.que_backIndex i = lastD (c1 :: t1) s.sent := hcc.2.2
      have hL1mem : lastD (c1 :: t1) s.sent ∈ c1 :: t1 := lastD_mem _ hl1ne
      have hLdrop : lastD (c1 :: t1) s.sent ∉ (c1 :: t1).dropLast :=
        lastD_not_mem_dropLast s.sent hl1nd hl1ne
      cases l2 with
      | nil =>
          have hla : (s.getQ qi).lastIndex = i := by
            rw [hlast]; exact lastD_concat (c1 :: t1) i s.sent
          have hnexti : s.que_nextIndex i = s.sent := by
            have h2 := hbnd.2
            rw [lastD_concat] at h2
            exact h2
          rw [dequeueFromAbsoluteIndex_eq_ft s qi i hcond1 hla.symm, hnexti, hbacki, hfa]
          refine ⟨rfl, ?_, by simp, by simp, ?_, fun j _ => by simp,
            fun qi' hne => by rw [getQ_setQ_ne _ _ hne]; simp, by simp⟩
          · refine ⟨?_, ?_, ?_, Or.inr ⟨?_, ?_⟩, ?_⟩
            · simp only [getQ_setQ_same, List.append_nil, List.length_append,
                List.length_cons, List.length_nil] at hcount ⊢
              omega
            · simp
            · simp
            · have h1 := hbnd.1
              simp only [headD_append_cons] at h1
              simpa using h1
            · simp
            · simp only [List.append_nil]
              refine linked_congr (c1 :: t1) ?_ (fun x _ => by simp) hcc.1
              intro x hx
              have hxL : x ≠ lastD (c1 :: t1) s.sent := fun he => hLdrop (he ▸ hx)
              simp [Function.update_noteq hxL]
          · intro j hj
            simp [Function.update_noteq hj]
      | cons c2 t2 =>
          have hc2mem : lastD (c2 :: t2) s.sent ∈ c2 :: t2 := lastD_mem _ (by simp)
          have hla : (s.getQ qi).lastIndex = lastD (c2 :: t2) s.sent := by
            rw [hlast, lastD_append _ _ (by simp), lastD_cons2]
          have hcond2 : ¬ i = (s.getQ qi).lastIndex := by
            rw [hla]; exact fun he => hil2 (he ▸ hc2mem)
          have hnexti : s.que_nextIndex i = c2 := hlink2.1.1
          have hl1l2 : ∀ x ∈ c1 :: t1, x ∉ c2 :: t2 := fun x hx hx2 => hdisj hx (by simp [hx2])
          have hc1c2 : c1 ≠ c2 := fun he => hl1l2 c1 (by simp) (by simp [he])
          have hL1 : lastD (c1 :: t1) s.sent ∉ c2 :: t2 := hl1l2 _ hL1mem
          have hLl2 : lastD (c2 :: t2) s.sent ≠ lastD (c1 :: t1) s.sent :=
            fun he => hL1 (he ▸ hc2mem)
          have hc2t2 : c2 ∉ t2 := (List.nodup_cons.mp hl2nd).1
          rw [dequeueFromAbsoluteIndex_eq_ff s qi i hcond1 hcond2, hnexti, hbacki, hfa, hla]
          refine ⟨rfl, ?_, by simp, by simp, ?_, ?_,
            fun qi' hne => by rw [getQ_setQ_ne _ _ hne]; simp, by simp⟩
          · refine ⟨?_, ?_, ?_, Or.inr ⟨?_, ?_⟩, ?_⟩
            · simp only [getQ_setQ_same, List.length_append, List.length_cons] at hcount ⊢
              omega
            · simp
            · simp only [getQ_setQ_same, sent_setQ, sent_setBack, sent_setNext]
              rw [lastD_append _ _ (by simp)]
            · simp only [headD_append_cons, setQ_back, setBack_back, setNext_back,
                sent_setQ, sent_setBack, sent_setNext]
              rw [Function.update_noteq hc1c2]
              have h1 := hbnd.1
              simpa using h1
            · simp only [setQ_next, setBack_next, setNext_next, sent_setQ, sent_setBack,
                sent_setNext]
              rw [lastD_append _ _ (by simp), Function.update_noteq hLl2]
              have h2 := hbnd.2
              rw [lastD_append _ _ (by simp), lastD_cons2] at h2
              exact h2
            · rw [linked_append_cons_iff c2 (c1 :: t1) t2]
              refine ⟨?_, ?_⟩
              · rw [linked_concat_iff c2 s.sent (c1 :: t1) (by simp)]
                refine ⟨?_, ?_, ?_⟩
                · refine linked_congr (c1 :: t1) ?_ ?_ hcc.1
                  · intro x hx
                    have hxL : x ≠ lastD (c1 :: t1) s.sent := fun he => hLdrop (he ▸ hx)
                    simp [Function.update_noteq hxL]
                  · intro x hx
                    have hxc2 : x ≠ c2 :=
                      fun he => hl1l2 x (List.mem_of_mem_tail hx) (by simp [he])
                    simp [Function.update_noteq hxc2]
                · simp
                · simp
              · refine linked_congr (c2 :: t2) ?_ ?_ (linked_of_cons hlink2)
                · intro x hx
                  have hxL : x ≠ lastD (c1 :: t1) s.sent :=
                    fun he => hL1 (he ▸ List.dropLast_subset _ hx)
                  simp [Function.update_noteq hxL]
                · intro x hx
                  have hxc2 : x ≠ c2 := fun he => hc2t2 (he ▸ hx)
                  simp [Function.update_noteq hxc2]
          · intro j hj
            simp [Function.update_noteq hj]
          · intro j hj
            simp only [List.headD_cons] at hj
            simp [Function.update_noteq hj]

/-! ### The handler scan -/

theorem findFrom_eq {s : SchedState} (h : P_EventHandler) (d : Nat) :
    ∀ l : List Nat, linked s.que_nextIndex s.que_backIndex l →
      s.findFrom h l.length (l.headD d) = l.find? (fun j => decide (s.que_handler j = h))
  | [], _ => rfl
  | [a], _ => by
      by_cases hc : s.que_handler a = h <;>
        simp [SchedState.findFrom, List.find?, hc]
  | a :: b :: t, hl => by
      have ih := findFrom_eq h d (b :: t) (linked_of_cons hl)
      simp only [List.headD_cons] at ih ⊢
      show (if s.que_handler a = h then some a
        else s.findFrom h (b :: t).length (s.que_nextIndex a)) = _
      by_cases hc : s.que_handler a = h
      · rw [if_pos hc, List.find?_cons_of_pos _ (by simpa using hc)]
      · rw [if_neg hc, List.find?_cons_of_neg _ (by simpa using hc), hl.1.1, ih]

theorem findInQueue_eq {s : SchedState} {qi : QueueId} {l : List Nat}
    (hq : queueIsAt s qi l) (h : P_EventHandler) :
    s.findInQueue qi h = l.find? (fun j => decide (s.que_handler j = h)) := by
  obtain ⟨hcount, hfirst, _, _, hlink⟩ := hq
  unfold SchedState.findInQueue
  rw [hcount, hfirst]
  exact findFrom_eq h s.sent l hlink

theorem find?_decomp {p : Nat → Bool} :
    ∀ l : List Nat, ∀ j : Nat, l.find? p = some j →
      ∃ l1 l2, l = l1 ++ j :: l2 ∧ (∀ x ∈ l1, ¬ p x = true) ∧ p j = true
  | [], j, hf => by simp [List.find?] at hf
  | a :: t, j, hf => by
      by_cases hc : p a = true
      · rw [List.find?_cons_of_pos _ hc] at hf
        refine ⟨[], t, ?_, by simp, ?_⟩
        · simpa using Option.some_inj.mp hf
        · exact (Option.some_inj.mp hf) ▸ hc
      · rw [List.find?_cons_of_neg _ hc] at hf
        obtain ⟨l1, l2, he, hall, hj⟩ := find?_decomp t j hf
        refine ⟨a :: l1, l2, by simp [he], ?_, hj⟩
        intro x hx
        rcases List.mem_cons.mp hx with rfl | hx2
        · exact hc
        · exact hall x hx2

theorem find?_append_first {p : Nat → Bool} {l1 : List Nat} (j : Nat) (l2 : List Nat)
    (hall : ∀ x ∈ l1, ¬ p x = true) (hj : p j = true) :
    (l1 ++ j :: l2).find? p = some j := by
  induction l1 with
  | nil => simp [List.find?_cons_of_pos _ hj]
  | cons a t ih =>
      rw [List.cons_append, List.find?_cons_of_neg _ (hall a (by simp))]
      exact ih (fun x hx => hall x (by simp [hx]))

/-! ### Counting helpers for the arena partition -/

theorem count_range_eq (n x : Nat) :
    (List.range n).count x = if x < n then 1 else 0 := by
  induction n with
  | zero => simp
  | succ m ih =>
      rw [List.range_succ, List.count_append, ih, List.count_singleton']
      split_ifs <;> omega

theorem allIdx_count (A : Queues) (x : Nat) :
    A.allIdx.count x =
      A.blank.count x + A.readyH.count x + A.readyMH.count x +
        A.readyML.count x + A.readyL.count x := by
  simp only [Queues.allIdx, List.count_append]

theorem chain_count_cases (A : Queues) (qi : QueueId) (x : Nat) :
    (A.chain qi).count x = A.blank.count x ∨
    (A.chain qi).count x = A.readyH.count x ∨
    (A.chain qi).count x = A.readyMH.count x ∨
    (A.chain qi).count x = A.readyML.count x ∨
    (A.chain qi).count x = A.readyL.count x := by
  rcases qi with _ | p
  · exact Or.inl rfl
  · cases p
    · exact Or.inr (Or.inl rfl)
    · exact Or.inr (Or.inr (Or.inl rfl))
    · exact Or.inr (Or.inr (Or.inr (Or.inl rfl)))
    · exact Or.inr (Or.inr (Or.inr (Or.inr rfl)))

theorem count_chain_le (A : Queues) (qi : QueueId) (x : Nat) :
    (A.chain qi).count x ≤ A.allIdx.count x := by
  have h := allIdx_count A x
  rcases chain_count_cases A qi x with h1 | h1 | h1 | h1 | h1 <;> omega

theorem count_two_chains_le (A : Queues) {qi qi' : QueueId} (hne : qi ≠ qi') (x : Nat) :
    (A.chain qi).count x + (A.chain qi').count x ≤ A.allIdx.count x := by
  have h := allIdx_count A x
  rcases qi with _ | p <;> rcases qi' with _ | p'
  · exact absurd rfl hne
  · cases p' <;> simp only [Queues.chain, Queues.ready] <;> omega
  · cases p <;> simp only [Queues.chain, Queues.ready] <;> omega
  · have hpp : p ≠ p' := fun he => hne (by rw [he])
    cases p <;> cases p' <;>
      first
        | exact absurd rfl hpp
        | (simp only [Queues.chain, Queues.ready]; omega)

/-! ### Consequences of the arena-wide invariant -/

theorem absState_queueIsAt {s : SchedState} {A : Queues} (hA : absState s A) :
    ∀ qi : QueueId, queueIsAt s qi (A.chain qi) := by
  rintro (_ | p)
  · exact hA.1
  · cases p
    · exact hA.2.1
    · exact hA.2.2.1
    · exact hA.2.2.2.1
    · exact hA.2.2.2.2.1

theorem absState_perm {s : SchedState} {A : Queues} (hA : absState s A) :
    A.allIdx.Perm (List.range s.Cap) := hA.2.2.2.2.2

theorem absState_count_le_one {s : SchedState} {A : Queues} (hA : absState s A) (x : Nat) :
    A.allIdx.count x ≤ 1 := by
  rw [List.Perm.count_eq (absState_perm hA) x, count_range_eq]
  split_ifs <;> omega

theorem absState_chain_nodup {s : SchedState} {A : Queues} (hA : absState s A)
    (qi : QueueId) : (A.chain qi).Nodup := by
  rw [List.nodup_iff_count_le_one]
  intro x
  exact le_trans (count_chain_le A qi x) (absState_count_le_one hA x)

theorem absState_chain_disjoint {s : SchedState} {A : Queues} (hA : absState s A)
    {qi qi' : QueueId} (hne : qi ≠ qi') {x : Nat}
    (hx : x ∈ A.chain qi) : x ∉ A.chain qi' := by
  intro hx'
  have h1 : 0 < (A.chain qi).count x := List.count_pos_iff.mpr hx
  have h2 : 0 < (A.chain qi').count x := List.count_pos_iff.mpr hx'
  have h3 := count_two_chains_le A hne x
  have h4 := absState_count_le_one hA x
  omega

theorem absState_chain_mem_lt {s : SchedState} {A : Queues} (hA : absState s A)
    (qi : QueueId) {x : Nat} (hx : x ∈ A.chain qi) : x < s.Cap := by
  have h1 : 0 < (A.chain qi).count x := List.count_pos_iff.mpr hx
  have h2 := count_chain_le A qi x
  have h3 : 0 < A.allIdx.count x := by omega
  have h4 : x ∈ A.allIdx := List.count_pos_iff.mp h3
  have h5 : x ∈ List.range s.Cap := (List.Perm.mem_iff (absState_perm hA)).mp h4
  exact List.mem_range.mp h5

theorem absState_sent_not_mem {s : SchedState} {A : Queues} (hA : absState s A)
    (qi : QueueId) : s.sent ∉ A.chain qi := by
  intro hx
  exact absurd (absState_chain_mem_lt hA qi hx) (by simp [SchedState.sent])

/-! ### Updating the abstraction -/

theorem chain_setChain_same (A : Queues) (qi : QueueId) (l : List Nat) :
    (A.setChain qi l).chain qi = l := by
  rcases qi with _ | p
  · rfl
  · cases p <;> rfl

theorem chain_setChain_ne (A : Queues) {qi qi' : QueueId} (l : List Nat)
    (hne : qi' ≠ qi) : (A.setChain qi l).chain qi' = A.chain qi' := by
  rcases qi with _ | p <;> rcases qi' with _ | p'
  · exact absurd rfl hne
  · cases p' <;> rfl
  · cases p <;> rfl
  · have hpp : p' ≠ p := fun he => hne (by rw [he])
    cases p <;> cases p' <;>
      first
        | exact absurd rfl hpp
        | rfl

theorem setChain_allIdx_count (A : Queues) (qi : QueueId) (l : List Nat) (x : Nat) :
    (A.setChain qi l).allIdx.count x + (A.chain qi).count x =
      A.allIdx.count x + l.count x := by
  rcases qi with _ | p
  · simp only [Queues.setChain, Queues.chain, allIdx_count]
    omega
  · cases p <;>
      (simp only [Queues.setChain, Queues.setReady, Queues.chain, Queues.ready, allIdx_count]
       omega)

theorem absState_of_chains {s : SchedState} {A : Queues}
    (h : ∀ qi, queueIsAt s qi (A.chain qi))
    (hperm : A.allIdx.Perm (List.range s.Cap)) : absState s A :=
  ⟨h .brank, h (.level .HIGHEST), h (.level .MIDHIGH), h (.level .MIDLOW),
    h (.level .LOWEST), hperm⟩

theorem setChain2_perm (A : Queues) {qi qi' : QueueId} (hne : qi' ≠ qi)
    (u' v' : List Nat)
    (hc : ∀ x, u'.count x + v'.count x =
      (A.chain qi).count x + (A.chain qi').count x) :
    ((A.setChain qi u').setChain qi' v').allIdx.Perm A.allIdx := by
  refine List.perm_iff_count.mpr (fun x => ?_)
  have h1 := setChain_allIdx_count A qi u' x
  have h2 := setChain_allIdx_count (A.setChain qi u') qi' v' x
  rw [chain_setChain_ne A u' hne] at h2
  have h3 := hc x
  omega

theorem sent_eq_of_cap {s s' : SchedState} (h : s'.Cap = s.Cap) : s'.sent = s.sent := by
  simp [SchedState.sent, h]

/-! ### Effect of `addEvent` on the abstraction -/

theorem addEvent_spec {s : SchedState} {A : Queues} {i : Nat} {bl : List Nat}
    (hA : absState s A) (hbl : A.blank = i :: bl) (p : EventPriority)
    (h : P_EventHandler) (a : EventArg) :
    absState (s.addEvent p h a)
      ((A.setChain .brank bl).setChain (.level p) (A.ready p ++ [i])) ∧
    (s.addEvent p h a).que_handler i = h ∧
    (s.addEvent p h a).que_arg i = a ∧
    (∀ j, j ≠ i → (s.addEvent p h a).que_handler j = s.que_handler j ∧
      (s.addEvent p h a).que_arg j = s.que_arg j) ∧
    (∀ p', p' ≠ p → (s.addEvent p h a).eventQue p' = s.eventQue p') ∧
    (s.addEvent p h a).brankQue.count = bl.length ∧
    (s.addEvent p h a).Cap = s.Cap := by
  have hblget : A.chain .brank = i :: bl := hbl
  have hbq : queueIsAt s .brank (i :: bl) := by
    have := absState_queueIsAt hA .brank
    rwa [hblget] at this
  have hndb : (i :: bl).Nodup := by
    have := absState_chain_nodup hA .brank
    rwa [hblget] at this
  have hibl : i ∉ bl := (List.nodup_cons.mp hndb).1
  have himem : i ∈ A.chain .brank := by rw [hblget]; simp
  have hne0 : ¬ s.brankQue.count = 0 := by
    have h1 : (s.getQ .brank).count = (i :: bl).length := hbq.1
    simp only [SchedState.getQ] at h1
    simp [h1]
  obtain ⟨D1, D2, D3, D4, D5, D6, D7, D8⟩ := dequeueFromHead_spec hbq hndb
  have haddeq : s.addEvent p h a =
      (s.dequeueFromHead .brank).2.enqueueToTail (.level p)
        (s.dequeueFromHead .brank).1 h a := by
    simp only [SchedState.addEvent, if_neg hne0]
  rw [D1] at haddeq
  have hsent2 : (s.dequeueFromHead .brank).2.sent = s.sent := sent_eq_of_cap D8
  have hnothead : ∀ qi', qi' ≠ QueueId.brank → ∀ x ∈ A.chain qi',
      x ≠ bl.headD s.sent := by
    intro qi' hne x hx
    rcases eq_or_ne bl [] with rfl | hbne
    · intro he
      rw [List.headD_nil] at he
      exact absurd (absState_chain_mem_lt hA qi' hx) (by rw [he]; simp [SchedState.sent])
    · intro he
      have hmem : bl.headD s.sent ∈ A.chain .brank := by
        rw [hblget]
        exact List.mem_cons_of_mem i (headD_mem _ hbne)
      exact absState_chain_disjoint hA hne hx (by rw [he]; exact hmem)
  have hq2 : ∀ qi', qi' ≠ QueueId.brank →
      queueIsAt (s.dequeueFromHead .brank).2 qi' (A.chain qi') := by
    intro qi' hne
    exact queueIsAt_frame (absState_queueIsAt hA qi') (fun x _ => by rw [D5])
      (fun x hx => D6 x (hnothead qi' hne x hx)) (D7 qi' hne) hsent2
  have hlp : QueueId.level p ≠ QueueId.brank := by simp
  have hiready : i ∉ A.chain (.level p) :=
    absState_chain_disjoint hA (show QueueId.brank ≠ QueueId.level p by simp) himem
  obtain ⟨E1, E2, E3, E4, E5, E6, E7⟩ :=
    enqueueToTail_spec (hq2 _ hlp) (absState_chain_nodup hA (.level p)) hiready h a
  simp only [hsent2] at E4
  rw [← haddeq] at E1 E2 E3 E4 E5 E6 E7
  have hCap : (s.addEvent p h a).Cap = s.Cap := by rw [E7, D8]
  have hnotlast : ∀ qi', qi' ≠ QueueId.level p → ∀ x ∈ A.chain qi',
      x ≠ lastD (A.chain (.level p)) s.sent := by
    intro qi' hne x hx
    rcases eq_or_ne (A.chain (.level p)) [] with he0 | hbne
    · rw [he0]
      intro he
      rw [lastD_nil] at he
      exact absurd (absState_chain_mem_lt hA qi' hx) (by rw [he]; simp [SchedState.sent])
    · intro he
      have hmem : lastD (A.chain (.level p)) s.sent ∈ A.chain (.level p) :=
        lastD_mem _ hbne
      exact absState_chain_disjoint hA hne hx (by rw [he]; exact hmem)
  have hqbrank : queueIsAt (s.addEvent p h a) QueueId.brank bl := by
    refine queueIsAt_frame D2 ?_ ?_ (E6 _ (by simp)) (sent_eq_of_cap E7)
    · intro x hx
      have hx1 : x ∈ A.chain .brank := by rw [hblget]; simp [hx]
      exact E4 x (fun he => hibl (he ▸ hx)) (hnotlast _ (by simp) x hx1)
    · intro x hx
      exact E5 x (fun he => hibl (he ▸ hx))
  refine ⟨?_, ?_, ?_, ?_, ?_, ?_, hCap⟩
  · refine absState_of_chains (fun qi => ?_) ?_
    · rcases eq_or_ne qi (QueueId.level p) with rfl | hqp
      · rw [chain_setChain_same]
        exact E1
      · rw [chain_setChain_ne _ _ hqp]
        rcases eq_or_ne qi QueueId.brank with rfl | hqb
        · rw [chain_setChain_same]
          exact hqbrank
        · rw [chain_setChain_ne _ _ hqb]
          refine queueIsAt_frame (hq2 qi hqb) ?_ ?_ (E6 qi hqp) (sent_eq_of_cap E7)
          · intro x hx
            exact E4 x (fun he => absState_chain_disjoint hA
                (show QueueId.brank ≠ qi from fun h2 => hqb h2.symm) himem (he ▸ hx))
              (hnotlast qi hqp x hx)
          · intro x hx
            exact E5 x (fun he => absState_chain_disjoint hA
              (show QueueId.brank ≠ qi from fun h2 => hqb h2.symm) himem (he ▸ hx))
    · have hperm1 : ((A.setChain .brank bl).setChain (.level p)
          (A.ready p ++ [i])).allIdx.Perm A.allIdx := by
        refine setChain2_perm A hlp bl (A.ready p ++ [i]) (fun x => ?_)
        rw [hblget]
        simp only [Queues.chain]
        rcases eq_or_ne x i with rfl | hxi
        · rw [List.count_cons_self, List.count_append, List.count_cons_self, List.count_nil]
          omega
        · rw [List.count_cons_of_ne hxi, List.count_append, List.count_cons_of_ne hxi,
            List.count_nil]
          omega
      rw [hCap]
      exact hperm1.trans (absState_perm hA)
  · rw [E2, D3, Function.update_same]
  · rw [E3, D4, Function.update_same]
  · intro j hj
    constructor
    · rw [E2, Function.update_noteq hj, D3]
    · rw [E3, Function.update_noteq hj, D4]
  · intro p' hp'
    have h1 : QueueId.level p' ≠ QueueId.level p := fun he => hp' (by injection he)
    have h2 := E6 _ h1
    have h3 := D7 (QueueId.level p') (by simp)
    simp only [SchedState.getQ] at h2 h3
    exact h2.trans h3
  · have hc1 : ((s.addEvent p h a).getQ .brank).count = bl.length := hqbrank.1
    simpa only [SchedState.getQ] using hc1

theorem addEvent_full {s : SchedState} (p : EventPriority) (h : P_EventHandler)
    (a : EventArg) (hc : s.brankQue.count = 0) : s.addEvent p h a = s := by
  simp [SchedState.addEvent, hc]

/-! ### The dispatch selection scan -/

theorem pickQueue_spec {s : SchedState} {p : EventPriority} (hp : s.pickQueue = some p) :
    (s.eventQue p).count ≠ 0 ∧
    ∀ p', p'.rank < p.rank → (s.eventQue p').count = 0 := by
  unfold SchedState.pickQueue at hp
  by_cases h1 : (s.eventQue .HIGHEST).count ≠ 0
  · rw [if_pos h1] at hp
    obtain rfl := Option.some_inj.mp hp
    refine ⟨h1, ?_⟩
    intro p' hr
    cases p' <;> simp [EventPriority.rank] at hr
  · rw [if_neg h1] at hp
    by_cases h2 : (s.eventQue .MIDHIGH).count ≠ 0
    · rw [if_pos h2] at hp
      obtain rfl := Option.some_inj.mp hp
      refine ⟨h2, ?_⟩
      intro p' hr
      cases p' with
      | HIGHEST => exact not_not.mp h1
      | MIDHIGH => simp [EventPriority.rank] at hr
      | MIDLOW => simp [EventPriority.rank] at hr
      | LOWEST => simp [EventPriority.rank] at hr
    · rw [if_neg h2] at hp
      by_cases h3 : (s.eventQue .MIDLOW).count ≠ 0
      · rw [if_pos h3] at hp
        obtain rfl := Option.some_inj.mp hp
        refine ⟨h3, ?_⟩
        intro p' hr
        cases p' with
        | HIGHEST => exact not_not.mp h1
        | MIDHIGH => exact not_not.mp h2
        | MIDLOW => simp [EventPriority.rank] at hr
        | LOWEST => simp [EventPriority.rank] at hr
      · rw [if_neg h3] at hp
        by_cases h4 : (s.eventQue .LOWEST).count ≠ 0
        · rw [if_pos h4] at hp
          obtain rfl := Option.some_inj.mp hp
          refine ⟨h4, ?_⟩
          intro p' hr
          cases p' with
          | HIGHEST => exact not_not.mp h1
          | MIDHIGH => exact not_not.mp h2
          | MIDLOW => exact not_not.mp h3
          | LOWEST => simp [EventPriority.rank] at hr
        · rw [if_neg h4] at hp
          exact absurd hp (by simp)

theorem pickQueue_none_spec {s : SchedState} (hp : s.pickQueue = none) :
    ∀ p, (s.eventQue p).count = 0 := by
  unfold SchedState.pickQueue at hp
  by_cases h1 : (s.eventQue .HIGHEST).count ≠ 0
  · rw [if_pos h1] at hp
    exact absurd hp (by simp)
  · rw [if_neg h1] at hp
    by_cases h2 : (s.eventQue .MIDHIGH).count ≠ 0
    · rw [if_pos h2] at hp
      exact absurd hp (by simp)
    · rw [if_neg h2] at hp
      by_cases h3 : (s.eventQue .MIDLOW).count ≠ 0
      · rw [if_pos h3] at hp
        exact absurd hp (by simp)
      · rw [if_neg h3] at hp
        by_cases h4 : (s.eventQue .LOWEST).count ≠ 0
        · rw [if_pos h4] at hp
          exact absurd hp (by simp)
        · intro p
          cases p
          · exact not_not.mp h1
          · exact not_not.mp h2
          · exact not_not.mp h3
          · exact not_not.mp h4

theorem pickQueue_eq_some {s : SchedState} {p : EventPriority}
    (hne : (s.eventQue p).count ≠ 0)
    (hmin : ∀ p', p'.rank < p.rank → (s.eventQue p').count = 0) :
    s.pickQueue = some p := by
  unfold SchedState.pickQueue
  cases p with
  | HIGHEST => rw [if_pos hne]
  | MIDHIGH =>
      rw [if_neg (not_not.mpr (hmin .HIGHEST (by simp [EventPriority.rank]))), if_pos hne]
  | MIDLOW =>
      rw [if_neg (not_not.mpr (hmin .HIGHEST (by simp [EventPriority.rank]))),
        if_neg (not_not.mpr (hmin .MIDHIGH (by simp [EventPriority.rank]))), if_pos hne]
  | LOWEST =>
      rw [if_neg (not_not.mpr (hmin .HIGHEST (by simp [EventPriority.rank]))),
        if_neg (not_not.mpr (hmin .MIDHIGH (by simp [EventPriority.rank]))),
        if_neg (not_not.mpr (hmin .MIDLOW (by simp [EventPriority.rank]))), if_pos hne]

theorem dispatchStep_none {s : SchedState} (hp : s.pickQueue = none) :
    s.dispatchStep = (none, s) := by
  simp [SchedState.dispatchStep, hp]

/-! ### Effect of one dispatch iteration on the abstraction -/

theorem dispatchStep_spec {s : SchedState} {A : Queues} {p : EventPriority}
    {i : Nat} {l : List Nat}
    (hA : absState s A) (hp : s.pickQueue = some p) (hc : A.ready p = i :: l) :
    s.dispatchStep.1 = some (p, s.que_handler i, s.que_arg i) ∧
    absState s.dispatchStep.2
      ((A.setChain (.level p) l).setChain .brank (i :: A.blank)) ∧
    s.dispatchStep.2.brankQue.firstIndex = i ∧
    s.dispatchStep.2.brankQue.count = A.blank.length + 1 ∧
    (∀ j, j ≠ i → s.dispatchStep.2.que_handler j = s.que_handler j ∧
      s.dispatchStep.2.que_arg j = s.que_arg j) ∧
    s.dispatchStep.2.Cap = s.Cap := by
  have hcget : A.chain (.level p) = i :: l := hc
  have hbp : QueueId.brank ≠ QueueId.level p := by simp
  have hq : queueIsAt s (.level p) (i :: l) := by
    have := absState_queueIsAt hA (.level p)
    rwa [hcget] at this
  have hndp : (i :: l).Nodup := by
    have := absState_chain_nodup hA (.level p)
    rwa [hcget] at this
  have hil : i ∉ l := (List.nodup_cons.mp hndp).1
  have himem : i ∈ A.chain (.level p) := by rw [hcget]; simp
  obtain ⟨D1, D2, D3, D4, D5, D6, D7, D8⟩ := dequeueFromHead_spec hq hndp
  have hdeq : s.dispatchStep =
      (some (p, (s.dequeueFromHead (.level p)).2.que_handler (s.dequeueFromHead (.level p)).1,
        (s.dequeueFromHead (.level p)).2.que_arg (s.dequeueFromHead (.level p)).1),
       (s.dequeueFromHead (.level p)).2.enqueueToHeadOfBrankQueue
         (s.dequeueFromHead (.level p)).1) := by
    simp only [SchedState.dispatchStep, hp]
  rw [D1, D3, D4] at hdeq
  have hsent2 : (s.dequeueFromHead (.level p)).2.sent = s.sent := sent_eq_of_cap D8
  have hnothead : ∀ qi', qi' ≠ QueueId.level p → ∀ x ∈ A.chain qi',
      x ≠ l.headD s.sent := by
    intro qi' hne x hx
    rcases eq_or_ne l [] with rfl | hbne
    · intro he
      rw [List.headD_nil] at he
      exact absurd (absState_chain_mem_lt hA qi' hx) (by rw [he]; simp [SchedState.sent])
    · intro he
      have hmem : l.headD s.sent ∈ A.chain (.level p) := by
        rw [hcget]
        exact List.mem_cons_of_mem i (headD_mem _ hbne)
      exact absState_chain_disjoint hA hne hx (by rw [he]; exact hmem)
  have hq2 : ∀ qi', qi' ≠ QueueId.level p →
      queueIsAt (s.dequeueFromHead (.level p)).2 qi' (A.chain qi') := by
    intro qi' hne
    exact queueIsAt_frame (absState_queueIsAt hA qi') (fun x _ => by rw [D5])
      (fun x hx => D6 x (hnothead qi' hne x hx)) (D7 qi' hne) hsent2
  have hiblank : i ∉ A.chain QueueId.brank :=
    absState_chain_disjoint hA (show QueueId.level p ≠ QueueId.brank by simp) himem
  obtain ⟨E1, E2, E3, E4, E5, E6, E7⟩ :=
    enqueueToHead_spec (hq2 _ hbp) (absState_chain_nodup hA .brank) hiblank 0
      EVENT_ARG_BRANK
  simp only [hsent2] at E5
  have hstate : s.dispatchStep.2 =
      (s.dequeueFromHead (.level p)).2.enqueueToHead .brank i 0 EVENT_ARG_BRANK := by
    rw [hdeq]
    rfl
  rw [← hstate] at E1 E2 E3 E4 E5 E6 E7
  have hCap : s.dispatchStep.2.Cap = s.Cap := by rw [E7, D8]
  have hqbrank : queueIsAt s.dispatchStep.2 QueueId.brank (i :: A.chain QueueId.brank) := E1
  have hnotblankhead : ∀ qi', qi' ≠ QueueId.brank → ∀ x ∈ A.chain qi',
      x ≠ (A.chain QueueId.brank).headD s.sent := by
    intro qi' hne x hx
    rcases eq_or_ne (A.chain QueueId.brank) [] with he0 | hbne
    · rw [he0]
      intro he
      rw [List.headD_nil] at he
      exact absurd (absState_chain_mem_lt hA qi' hx) (by rw [he]; simp [SchedState.sent])
    · intro he
      have hmem : (A.chain QueueId.brank).headD s.sent ∈ A.chain QueueId.brank :=
        headD_mem _ hbne
      exact absState_chain_disjoint hA hne hx (by rw [he]; exact hmem)
  refine ⟨by rw [hdeq], ?_, ?_, ?_, ?_, hCap⟩
  · refine absState_of_chains (fun qi => ?_) ?_
    · rcases eq_or_ne qi QueueId.brank with rfl | hqb
      · rw [chain_setChain_same]
        exact hqbrank
      · rw [chain_setChain_ne _ _ hqb]
        rcases eq_or_ne qi (QueueId.level p) with rfl | hqp
        · rw [chain_setChain_same]
          refine queueIsAt_frame D2 ?_ ?_ (E6 _ hqb) (sent_eq_of_cap E7)
          · intro x hx
            exact E4 x (fun he => hil (he ▸ hx))
          · intro x hx
            have hx1 : x ∈ A.chain (.level p) := by rw [hcget]; simp [hx]
            exact E5 x (fun he => hil (he ▸ hx)) (hnotblankhead _ (by simp) x hx1)
        · rw [chain_setChain_ne _ _ hqp]
          refine queueIsAt_frame (hq2 qi hqp) ?_ ?_ (E6 qi hqb) (sent_eq_of_cap E7)
          · intro x hx
            exact E4 x (fun he => absState_chain_disjoint hA
              (show QueueId.level p ≠ qi from fun h2 => hqp h2.symm) himem (he ▸ hx))
          · intro x hx
            exact E5 x (fun he => absState_chain_disjoint hA
                (show QueueId.level p ≠ qi from fun h2 => hqp h2.symm) himem (he ▸ hx))
              (hnotblankhead qi hqb x hx)
    · have hperm1 : ((A.setChain (.level p) l).setChain .brank
          (i :: A.blank)).allIdx.Perm A.allIdx := by
        refine setChain2_perm A hbp l (i :: A.blank) (fun x => ?_)
        rw [hcget]
        simp only [Queues.chain]
        rcases eq_or_ne x i with rfl | hxi
        · rw [List.count_cons_self, List.count_cons_self]
          omega
        · rw [List.count_cons_of_ne hxi, List.count_cons_of_ne hxi]
      rw [hCap]
      exact hperm1.trans (absState_perm hA)
  · have h1 : (s.dispatchStep.2.getQ .brank).firstIndex =
        (i :: A.chain QueueId.brank).headD s.dispatchStep.2.sent := hqbrank.2.1
    simpa only [SchedState.getQ, List.headD_cons] using h1
  · have h1 : (s.dispatchStep.2.getQ .brank).count =
        (i :: A.chain QueueId.brank).length := hqbrank.1
    simpa only [SchedState.getQ, List.length_cons] using h1
  · intro j hj
    constructor
    · rw [E2, Function.update_noteq hj, D3]
    · rw [E3, Function.update_noteq hj, D4]

/-! ### Effect of cancellation on the abstraction -/

theorem deleteEventQ_none {s : SchedState} {A : Queues} {qi : QueueId}
    (hA : absState s A) (h : P_EventHandler)
    (hno : ∀ x ∈ A.chain qi, ¬ s.que_handler x = h) :
    s.deleteEventQ qi h = s := by
  unfold SchedState.deleteEventQ
  rw [findInQueue_eq (absState_queueIsAt hA qi) h,
    List.find?_eq_none.mpr (fun x hx => by simpa using hno x hx)]

theorem findInQueue_isSome_iff {s : SchedState} {A : Queues} (hA : absState s A)
    (qi : QueueId) (h : P_EventHandler) :
    (s.findInQueue qi h).isSome = true ↔ ∃ x ∈ A.chain qi, s.que_handler x = h := by
  rw [findInQueue_eq (absState_queueIsAt hA qi) h, List.find?_isSome]
  constructor
  · rintro ⟨x, hx, hp⟩
    exact ⟨x, hx, by simpa using hp⟩
  · rintro ⟨x, hx, hp⟩
    exact ⟨x, hx, by simpa using hp⟩

theorem deleteEventQ_found {s : SchedState} {A : Queues} {qi : QueueId}
    {l1 l2 : List Nat} {j : Nat} (hA : absState s A) (h : P_EventHandler)
    (hqi : qi ≠ QueueId.brank)
    (hchain : A.chain qi = l1 ++ j :: l2)
    (hl1 : ∀ x ∈ l1, ¬ s.que_handler x = h) (hj : s.que_handler j = h) :
    absState (s.deleteEventQ qi h)
      ((A.setChain qi (l1 ++ l2)).setChain .brank (j :: A.blank)) ∧
    (∀ x, x ≠ j → (s.deleteEventQ qi h).que_handler x = s.que_handler x ∧
      (s.deleteEventQ qi h).que_arg x = s.que_arg x) ∧
    (s.deleteEventQ qi h).brankQue.firstIndex = j ∧
    (s.deleteEventQ qi h).Cap = s.Cap := by
  have hbq : QueueId.brank ≠ qi := fun he => hqi he.symm
  have hfind : s.findInQueue qi h = some j := by
    rw [findInQueue_eq (absState_queueIsAt hA qi) h, hchain]
    exact find?_append_first j l2 (fun x hx => by simpa using hl1 x hx) (by simpa using hj)
  have hdel : s.deleteEventQ qi h =
      ((s.dequeueFromAbsoluteIndex qi j).2).enqueueToHeadOfBrankQueue j := by
    unfold SchedState.deleteEventQ
    rw [hfind]
  have hq : queueIsAt s qi (l1 ++ j :: l2) := by
    have := absState_queueIsAt hA qi
    rwa [hchain] at this
  have hnd : (l1 ++ j :: l2).Nodup := by
    have := absState_chain_nodup hA qi
    rwa [hchain] at this
  have hjmem : j ∈ A.chain qi := by rw [hchain]; simp
  have hjl12 : j ∉ l1 ++ l2 := by
    intro hx
    have hnd2 := hnd
    rw [List.nodup_append] at hnd2
    rcases List.mem_append.mp hx with h1 | h2
    · exact hnd2.2.2 h1 (by simp)
    · exact (List.nodup_cons.mp hnd2.2.1).1 h2
  obtain ⟨F1, F2, F3, F4, F5, F6, F7, F8⟩ := dequeueFromAbsoluteIndex_spec hq hnd
  have hsent2 : (s.dequeueFromAbsoluteIndex qi j).2.sent = s.sent := sent_eq_of_cap F8
  have hnot1 : ∀ qi', qi' ≠ qi → ∀ x ∈ A.chain qi', x ≠ lastD l1 s.sent := by
    intro qi' hne x hx
    rcases eq_or_ne l1 [] with rfl | hbne
    · intro he
      rw [lastD_nil] at he
      exact absurd (absState_chain_mem_lt hA qi' hx) (by rw [he]; simp [SchedState.sent])
    · intro he
      have hmem : lastD l1 s.sent ∈ A.chain qi := by
        rw [hchain]
        exact List.mem_append_left _ (lastD_mem _ hbne)
      exact absState_chain_disjoint hA hne hx (by rw [he]; exact hmem)
  have hnot2 : ∀ qi', qi' ≠ qi → ∀ x ∈ A.chain qi', x ≠ l2.headD s.sent := by
    intro qi' hne x hx
    rcases eq_or_ne l2 [] with rfl | hbne
    · intro he
      rw [List.headD_nil] at he
      exact absurd (absState_chain_mem_lt hA qi' hx) (by rw [he]; simp [SchedState.sent])
    · intro he
      have hmem : l2.headD s.sent ∈ A.chain qi := by
        rw [hchain]
        refine List.mem_append_right _ (List.mem_cons_of_mem j (headD_mem _ hbne))
      exact absState_chain_disjoint hA hne hx (by rw [he]; exact hmem)
  have hq2 : ∀ qi', qi' ≠ qi →
      queueIsAt (s.dequeueFromAbsoluteIndex qi j).2 qi' (A.chain qi') := by
    intro qi' hne
    exact queueIsAt_frame (absState_queueIsAt hA qi')
      (fun x hx => F5 x (hnot1 qi' hne x hx))
      (fun x hx => F6 x (hnot2 qi' hne x hx)) (F7 qi' hne) hsent2
  have hjblank : j ∉ A.chain QueueId.brank := absState_chain_disjoint hA hqi hjmem
  obtain ⟨E1, E2, E3, E4, E5, E6, E7⟩ :=
    enqueueToHead_spec (hq2 _ hbq) (absState_chain_nodup hA .brank) hjblank 0
      EVENT_ARG_BRANK
  simp only [hsent2] at E5
  have hstate : s.deleteEventQ qi h =
      (s.dequeueFromAbsoluteIndex qi j).2.enqueueToHead .brank j 0 EVENT_ARG_BRANK := by
    rw [hdel]
    rfl
  rw [← hstate] at E1 E2 E3 E4 E5 E6 E7
  have hCap : (s.deleteEventQ qi h).Cap = s.Cap := by rw [E7, F8]
  have hnotbh : ∀ qi', qi' ≠ QueueId.brank → ∀ x ∈ A.chain qi',
      x ≠ (A.chain QueueId.brank).headD s.sent := by
    intro qi' hne x hx
    rcases eq_or_ne (A.chain QueueId.brank) [] with he0 | hbne
    · rw [he0]
      intro he
      rw [List.headD_nil] at he
      exact absurd (absState_chain_mem_lt hA qi' hx) (by rw [he]; simp [SchedState.sent])
    · intro he
      have hmem : (A.chain QueueId.brank).headD s.sent ∈ A.chain QueueId.brank :=
        headD_mem _ hbne
      exact absState_chain_disjoint hA hne hx (by rw [he]; exact hmem)
  refine ⟨?_, ?_, ?_, hCap⟩
  · refine absState_of_chains (fun qi' => ?_) ?_
    · rcases eq_or_ne qi' QueueId.brank with rfl | hqb
      · rw [chain_setChain_same]
        exact E1
      · rw [chain_setChain_ne _ _ hqb]
        rcases eq_or_ne qi' qi with rfl | hqq
        · rw [chain_setChain_same]
          refine queueIsAt_frame F2 ?_ ?_ (E6 _ hqb) (sent_eq_of_cap E7)
          · intro x hx
            exact E4 x (fun he => hjl12 (he ▸ hx))
          · intro x hx
            have hx1 : x ∈ A.chain qi' := by
              rw [hchain]
              rcases List.mem_append.mp hx with h1 | h2
              · exact List.mem_append_left _ h1
              · exact List.mem_append_right _ (List.mem_cons_of_mem j h2)
            exact E5 x (fun he => hjl12 (he ▸ hx)) (hnotbh _ hqi x hx1)
        · rw [chain_setChain_ne _ _ hqq]
          refine queueIsAt_frame (hq2 qi' hqq) ?_ ?_ (E6 qi' hqb) (sent_eq_of_cap E7)
          · intro x hx
            exact E4 x (fun he => absState_chain_disjoint hA
              (show qi ≠ qi' from fun h2 => hqq h2.symm) hjmem (he ▸ hx))
          · intro x hx
            exact E5 x (fun he => absState_chain_disjoint hA
                (show qi ≠ qi' from fun h2 => hqq h2.symm) hjmem (he ▸ hx))
              (hnotbh qi' hqb x hx)
    · have hperm1 : ((A.setChain qi (l1 ++ l2)).setChain .brank
          (j :: A.blank)).allIdx.Perm A.allIdx := by
        refine setChain2_perm A hbq (l1 ++ l2) (j :: A.blank) (fun x => ?_)
        rw [hchain]
        simp only [Queues.chain]
        rcases eq_or_ne x j with rfl | hxj
        · rw [List.count_append, List.count_append, List.count_cons_self,
            List.count_cons_self]
          omega
        · rw [List.count_append, List.count_append, List.count_cons_of_ne hxj,
            List.count_cons_of_ne hxj]
      rw [hCap]
      exact hperm1.trans (absState_perm hA)
  · intro x hx
    constructor
    · rw [E2, Function.update_noteq hx, F3]
    · rw [E3, Function.update_noteq hx, F4]
  · have h1 : ((s.deleteEventQ qi h).getQ .brank).firstIndex =
        (j :: A.chain QueueId.brank).headD (s.deleteEventQ qi h).sent := E1.2.1
    simpa only [SchedState.getQ, List.headD_cons] using h1

theorem chain_match_decomp {s : SchedState} {A : Queues} (hA : absState s A)
    (qi : QueueId) (h : P_EventHandler)
    (hsome : ∃ x ∈ A.chain qi, s.que_handler x = h) :
    ∃ l1 j l2, A.chain qi = l1 ++ j :: l2 ∧ (∀ x ∈ l1, ¬ s.que_handler x = h) ∧
      s.que_handler j = h := by
  have hs : ((A.chain qi).find? (fun j => decide (s.que_handler j = h))).isSome = true := by
    rw [List.find?_isSome]
    obtain ⟨x, hx, he⟩ := hsome
    exact ⟨x, hx, by simpa using he⟩
  obtain ⟨j, hj⟩ := Option.isSome_iff_exists.mp hs
  obtain ⟨l1, l2, hdec, hall, hpj⟩ := find?_decomp _ j hj
  exact ⟨l1, j, l2, hdec, fun x hx => by simpa using hall x hx, by simpa using hpj⟩

theorem deleteEvent_none {s : SchedState} {A : Queues} (hA : absState s A)
    (h : P_EventHandler)
    (hno : ∀ p, ∀ x ∈ A.ready p, ¬ s.que_handler x = h) :
    s.deleteEvent h = s := by
  have hf : ∀ p, ¬ ((s.findInQueue (.level p) h).isSome = true) := by
    intro p hs
    obtain ⟨x, hx, he⟩ := (findInQueue_isSome_iff hA (.level p) h).mp hs
    exact hno p x hx he
  unfold SchedState.deleteEvent
  rw [if_neg (hf .HIGHEST), if_neg (hf .MIDHIGH), if_neg (hf .MIDLOW),
    if_neg (hf .LOWEST)]

theorem deleteEvent_selects {s : SchedState} {A : Queues} {p : EventPriority}
    (hA : absState s A) (h : P_EventHandler)
    (hhigh : ∀ p', p'.rank < p.rank → ∀ x ∈ A.ready p', ¬ s.que_handler x = h)
    (hsome : ∃ x ∈ A.ready p, s.que_handler x = h) :
    s.deleteEvent h = s.deleteEventQ (.level p) h := by
  have htrue : (s.findInQueue (.level p) h).isSome = true :=
    (findInQueue_isSome_iff hA (.level p) h).mpr hsome
  have hf : ∀ p', p'.rank < p.rank → ¬ ((s.findInQueue (.level p') h).isSome = true) := by
    intro p' hr hs
    obtain ⟨x, hx, he⟩ := (findInQueue_isSome_iff hA (.level p') h).mp hs
    exact hhigh p' hr x hx he
  unfold SchedState.deleteEvent
  cases p with
  | HIGHEST => rw [if_pos htrue]
  | MIDHIGH =>
      rw [if_neg (hf .HIGHEST (by simp [EventPriority.rank])), if_pos htrue]
  | MIDLOW =>
      rw [if_neg (hf .HIGHEST (by simp [EventPriority.rank])),
        if_neg (hf .MIDHIGH (by simp [EventPriority.rank])), if_pos htrue]
  | LOWEST =>
      rw [if_neg (hf .HIGHEST (by simp [EventPriority.rank])),
        if_neg (hf .MIDHIGH (by simp [EventPriority.rank])),
        if_neg (hf .MIDLOW (by simp [EventPriority.rank])), if_pos htrue]

/-! ### Invariant preservation across one operation and whole runs -/

theorem step_absState {s : SchedState} {A : Queues} (hA : absState s A) (o : Op) :
    ∃ A', absState (s.step o) A' := by
  cases o with
  | add p h a =>
      rcases hbl : A.blank with _ | ⟨i, bl⟩
      · have hq := absState_queueIsAt hA .brank
        rw [show A.chain .brank = A.blank from rfl, hbl] at hq
        have hc : s.brankQue.count = 0 := by
          have h1 : (s.getQ .brank).count = ([] : List Nat).length := hq.1
          simpa [SchedState.getQ] using h1
        exact ⟨A, by rw [show s.step (.add p h a) = s.addEvent p h a from rfl,
          addEvent_full p h a hc]; exact hA⟩
      · exact ⟨_, (addEvent_spec hA hbl p h a).1⟩
  | del h =>
      by_cases h0 : ∃ x ∈ A.ready .HIGHEST, s.que_handler x = h
      · obtain ⟨l1, j, l2, hchain, hl1, hj⟩ := chain_match_decomp hA (.level .HIGHEST) h h0
        have heq := deleteEvent_selects hA h
          (fun p' hr => by cases p' <;> simp [EventPriority.rank] at hr) h0
        rw [show s.step (.del h) = s.deleteEvent h from rfl, heq]
        exact ⟨_, (deleteEventQ_found hA h (by simp) hchain hl1 hj).1⟩
      · by_cases h1 : ∃ x ∈ A.ready .MIDHIGH, s.que_handler x = h
        · obtain ⟨l1, j, l2, hchain, hl1, hj⟩ :=
            chain_match_decomp hA (.level .MIDHIGH) h h1
          have heq := deleteEvent_selects hA h (fun p' hr => by
            cases p' with
            | HIGHEST => intro x hx he; exact h0 ⟨x, hx, he⟩
            | MIDHIGH => simp [EventPriority.rank] at hr
            | MIDLOW => simp [EventPriority.rank] at hr
            | LOWEST => simp [EventPriority.rank] at hr) h1
          rw [show s.step (.del h) = s.deleteEvent h from rfl, heq]
          exact ⟨_, (deleteEventQ_found hA h (by simp) hchain hl1 hj).1⟩
        · by_cases h2 : ∃ x ∈ A.ready .MIDLOW, s.que_handler x = h
          · obtain ⟨l1, j, l2, hchain, hl1, hj⟩ :=
              chain_match_decomp hA (.level .MIDLOW) h h2
            have heq := deleteEvent_selects hA h (fun p' hr => by
              cases p' with
              | HIGHEST => intro x hx he; exact h0 ⟨x, hx, he⟩
              | MIDHIGH => intro x hx he; exact h1 ⟨x, hx, he⟩
              | MIDLOW => simp [EventPriority.rank] at hr
              | LOWEST => simp [EventPriority.rank] at hr) h2
            rw [show s.step (.del h) = s.deleteEvent h from rfl, heq]
            exact ⟨_, (deleteEventQ_found hA h (by simp) hchain hl1 hj).1⟩
          · by_cases h3 : ∃ x ∈ A.ready .LOWEST, s.que_handler x = h
            · obtain ⟨l1, j, l2, hchain, hl1, hj⟩ :=
                chain_match_decomp hA (.level .LOWEST) h h3
              have heq := deleteEvent_selects hA h (fun p' hr => by
                cases p' with
                | HIGHEST => intro x hx he; exact h0 ⟨x, hx, he⟩
                | MIDHIGH => intro x hx he; exact h1 ⟨x, hx, he⟩
                | MIDLOW => intro x hx he; exact h2 ⟨x, hx, he⟩
                | LOWEST => simp [EventPriority.rank] at hr) h3
              rw [show s.step (.del h) = s.deleteEvent h from rfl, heq]
              exact ⟨_, (deleteEventQ_found hA h (by simp) hchain hl1 hj).1⟩
            · refine ⟨A, ?_⟩
              rw [show s.step (.del h) = s.deleteEvent h from rfl,
                deleteEvent_none hA h ?_]
              · exact hA
              · intro p x hx he
                cases p
                · exact h0 ⟨x, hx, he⟩
                · exact h1 ⟨x, hx, he⟩
                · exact h2 ⟨x, hx, he⟩
                · exact h3 ⟨x, hx, he⟩
  | delP p h =>
      by_cases hm : ∃ x ∈ A.ready p, s.que_handler x = h
      · obtain ⟨l1, j, l2, hchain, hl1, hj⟩ := chain_match_decomp hA (.level p) h hm
        exact ⟨_, (deleteEventQ_found hA h (by simp) hchain hl1 hj).1⟩
      · refine ⟨A, ?_⟩
        rw [show s.step (.delP p h) = s.deleteEventQ (.level p) h from rfl,
          deleteEventQ_none hA h ?_]
        · exact hA
        · intro x hx he
          exact hm ⟨x, hx, he⟩
  | disp =>
      rcases hps : s.pickQueue with _ | p
      · exact ⟨A, by rw [show s.step .disp = s.dispatchStep.2 from rfl,
          dispatchStep_none hps]; exact hA⟩
      · have hcne := (pickQueue_spec hps).1
        rcases hrc : A.ready p with _ | ⟨i, l⟩
        · exfalso
          have hq := absState_queueIsAt hA (.level p)
          rw [show A.chain (.level p) = A.ready p from rfl, hrc] at hq
          have h1 : (s.getQ (.level p)).count = ([] : List Nat).length := hq.1
          simp only [SchedState.getQ, List.length_nil] at h1
          exact hcne h1
        · exact ⟨_, (dispatchStep_spec hA hps hrc).2.1⟩

theorem runOps_absState : ∀ (ops : List Op) (s : SchedState) (A : Queues),
    absState s A → ∃ A', absState (runOps s ops) A'
  | [], _, A, hA => ⟨A, hA⟩
  | o :: ops, s, A, hA => by
      obtain ⟨A1, hA1⟩ := step_absState hA o
      obtain ⟨A2, hA2⟩ := runOps_absState ops (s.step o) A1 hA1
      exact ⟨A2, hA2⟩

/-! ### The initial state satisfies the invariant -/

/-- Abstraction of the freshly initialised arena: every slot is in the blank
queue, in arena order; the four ready lists are empty. -/
def initQueues (Cap : Nat) : Queues :=
  ⟨List.range Cap, [], [], [], []⟩

theorem lastD_range (n d : Nat) : lastD (List.range (n + 1)) d = n := by
  rw [List.range_succ]
  exact lastD_concat _ _ _

theorem headD_range (n d : Nat) : (List.range (n + 1)).headD d = 0 := by
  rw [List.range_succ_eq_map]
  rfl

theorem initState_linked (Cap : Nat) :
    ∀ n, n ≤ Cap →
      linked (initState Cap).que_nextIndex (initState Cap).que_backIndex
        (List.range n)
  | 0, _ => by simp
  | 1, _ => by simp [List.range_succ]
  | n + 2, hle => by
      rw [List.range_succ]
      rw [linked_concat_iff (n + 1) 0 (List.range (n + 1)) (by simp)]
      refine ⟨initState_linked Cap (n + 1) (by omega), ?_, ?_⟩
      · rw [lastD_range]
        show (if n + 1 < Cap then n + 1 else Cap) = n + 1
        rw [if_pos (by omega)]
      · rw [lastD_range]
        show (if n + 1 = 0 then Cap else n + 1 - 1) = n
        rw [if_neg (by omega)]
        omega

theorem initState_absState (Cap : Nat) : absState (initState Cap) (initQueues Cap) := by
  refine absState_of_chains (fun qi => ?_) ?_
  · rcases qi with _ | p
    · show queueIs _ _ _ (initState Cap).brankQue (List.range Cap)
      rcases Cap with _ | n
      · exact ⟨rfl, rfl, rfl, Or.inl rfl, trivial⟩
      · have hb : (initState (n + 1)).brankQue = ⟨n + 1, 0, n⟩ := by
          simp [initState]
        refine ⟨?_, ?_, ?_, Or.inr ⟨?_, ?_⟩, ?_⟩
        · rw [hb]
          simp
        · rw [hb, headD_range]
        · rw [hb, lastD_range]
        · rw [headD_range]
          show (if (0 : Nat) = 0 then n + 1 else 0 - 1) = n + 1
          rw [if_pos rfl]
        · rw [lastD_range]
          show (if n + 1 < n + 1 then n + 1 else n + 1) = n + 1
          rw [if_neg (by omega)]
        · exact initState_linked (n + 1) (n + 1) le_rfl
    · cases p <;> exact ⟨rfl, rfl, rfl, Or.inl rfl, trivial⟩
  · simp [initQueues, Queues.allIdx, initState]

/-! ### Capacity is never altered by any operation -/

theorem dequeueFromHead_Cap (s : SchedState) (qi : QueueId) :
    (s.dequeueFromHead qi).2.Cap = s.Cap := by
  unfold SchedState.dequeueFromHead
  dsimp only
  split <;> simp

theorem dequeueFromAbsoluteIndex_Cap (s : SchedState) (qi : QueueId) (i : Nat) :
    (s.dequeueFromAbsoluteIndex qi i).2.Cap = s.Cap := by
  unfold SchedState.dequeueFromAbsoluteIndex
  dsimp only
  split <;> split <;> simp

theorem enqueueToTail_Cap (s : SchedState) (qi : QueueId) (i : Nat)
    (h : P_EventHandler) (a : EventArg) : (s.enqueueToTail qi i h a).Cap = s.Cap := by
  unfold SchedState.enqueueToTail
  dsimp only
  split <;> simp

theorem enqueueToHead_Cap (s : SchedState) (qi : QueueId) (i : Nat)
    (h : P_EventHandler) (a : EventArg) : (s.enqueueToHead qi i h a).Cap = s.Cap := by
  unfold SchedState.enqueueToHead
  dsimp only
  split <;> simp

theorem deleteEventQ_Cap (s : SchedState) (qi : QueueId) (h : P_EventHandler) :
    (s.deleteEventQ qi h).Cap = s.Cap := by
  unfold SchedState.deleteEventQ
  cases s.findInQueue qi h with
  | none => rfl
  | some j =>
      show ((s.dequeueFromAbsoluteIndex qi j).2.enqueueToHead .brank j 0
        EVENT_ARG_BRANK).Cap = s.Cap
      rw [enqueueToHead_Cap, dequeueFromAbsoluteIndex_Cap]

theorem step_Cap (s : SchedState) (o : Op) : (s.step o).Cap = s.Cap := by
  cases o with
  | add p h a =>
      show (s.addEvent p h a).Cap = s.Cap
      unfold SchedState.addEvent
      dsimp only
      split
      · rfl
      · rw [enqueueToTail_Cap, dequeueFromHead_Cap]
  | del h =>
      show (s.deleteEvent h).Cap = s.Cap
      unfold SchedState.deleteEvent
      split
      · rw [deleteEventQ_Cap]
      · split
        · rw [deleteEventQ_Cap]
        · split
          · rw [deleteEventQ_Cap]
          · split
            · rw [deleteEventQ_Cap]
            · rfl
  | delP p h =>
      show (s.deleteEventQ (.level p) h).Cap = s.Cap
      rw [deleteEventQ_Cap]
  | disp =>
      show s.dispatchStep.2.Cap = s.Cap
      unfold SchedState.dispatchStep
      cases hp : s.pickQueue with
      | none => rfl
      | some p =>
          show ((s.dequeueFromHead (.level p)).2.enqueueToHead .brank
            (s.dequeueFromHead (.level p)).1 0 EVENT_ARG_BRANK).Cap = s.Cap
          rw [enqueueToHead_Cap, dequeueFromHead_Cap]

theorem runOps_Cap : ∀ (ops : List Op) (s : SchedState),
    (runOps s ops).Cap = s.Cap
  | [], _ => rfl
  | o :: ops, s => by
      have h1 := runOps_Cap ops (s.step o)
      have h2 := step_Cap s o
      show (runOps (s.step o) ops).Cap = s.Cap
      rw [h1, h2]

/-! ### Count accounting from the invariant -/

theorem absState_count_sum {s : SchedState} {A : Queues} (hA : absState s A) :
    s.brankQue.count + (s.eventQue .HIGHEST).count + (s.eventQue .MIDHIGH).count +
      (s.eventQue .MIDLOW).count + (s.eventQue .LOWEST).count = s.Cap := by
  have hb : s.brankQue.count = A.blank.length := (absState_queueIsAt hA .brank).1
  have hH : (s.eventQue .HIGHEST).count = A.readyH.length :=
    (absState_queueIsAt hA (.level .HIGHEST)).1
  have hMH : (s.eventQue .MIDHIGH).count = A.readyMH.length :=
    (absState_queueIsAt hA (.level .MIDHIGH)).1
  have hML : (s.eventQue .MIDLOW).count = A.readyML.length :=
    (absState_queueIsAt hA (.level .MIDLOW)).1
  have hL : (s.eventQue .LOWEST).count = A.readyL.length :=
    (absState_queueIsAt hA (.level .LOWEST)).1
  have hlen : A.allIdx.length = s.Cap := by
    rw [List.Perm.length_eq (absState_perm hA), List.length_range]
  rw [hb, hH, hMH, hML, hL]
  simp only [Queues.allIdx, List.length_append] at hlen
  omega

/-- C1: after any finite sequence of `addEvent`, `deleteEvent` (either
overload) and dispatch-loop iterations starting from the initialised state
(all slots in the free list), the four arena-wide invariants hold: the five
queues abstract to chains in which every non-empty queue is a correctly
doubly linked chain from `firstIndex` to `lastIndex` with the sentinel
beyond both endpoints, every empty queue has
`firstIndex = lastIndex = sentinel`, every slot index belongs to exactly one
queue (the concatenation of the five chains is duplicate-free and enumerates
the whole arena, so there are no cycles and no slot links to itself), and
the counts of the five queue headers sum to Capacity. -/
theorem C1_arena_invariants (Cap : Nat) (ops : List Op) :
    ∃ A : Queues,
      absState (runOps (initState Cap) ops) A ∧
      A.allIdx.Nodup ∧
      A.allIdx.Perm (List.range Cap) ∧
      (runOps (initState Cap) ops).brankQue.count +
        ((runOps (initState Cap) ops).eventQue .HIGHEST).count +
        ((runOps (initState Cap) ops).eventQue .MIDHIGH).count +
        ((runOps (initState Cap) ops).eventQue .MIDLOW).count +
        ((runOps (initState Cap) ops).eventQue .LOWEST).count = Cap := by
  obtain ⟨A, hA⟩ := runOps_absState ops (initState Cap) (initQueues Cap)
    (initState_absState Cap)
  have hcap : (runOps (initState Cap) ops).Cap = Cap := runOps_Cap ops (initState Cap)
  refine ⟨A, hA, ?_, ?_, ?_⟩
  · exact (List.Perm.nodup_iff (absState_perm hA)).mpr (List.nodup_range _)
  · have hperm := absState_perm hA
    rwa [hcap] at hperm
  · have hsum := absState_count_sum hA
    rwa [hcap] at hsum

/-- C6: starting from the initialised state in which all slots are in the
free list, after every finite operation sequence
`getEventFreeCapacity() + getEventCount() = Capacity`, where
`getEventFreeCapacity()` returns the free list's count and `getEventCount()`
the sum of the counts of the four priority ready lists. -/
theorem C6_capacity_accounting (Cap : Nat) (ops : List Op) :
    (runOps (initState Cap) ops).getEventFreeCapacity +
      (runOps (initState Cap) ops).getEventCount = Cap ∧
    (runOps (initState Cap) ops).getEventFreeCapacity =
      (runOps (initState Cap) ops).brankQue.count ∧
    (runOps (initState Cap) ops).getEventCount =
      ((runOps (initState Cap) ops).eventQue .HIGHEST).count +
        ((runOps (initState Cap) ops).eventQue .MIDHIGH).count +
        ((runOps (initState Cap) ops).eventQue .MIDLOW).count +
        ((runOps (initState Cap) ops).eventQue .LOWEST).count := by
  obtain ⟨A, hA⟩ := runOps_absState ops (initState Cap) (initQueues Cap)
    (initState_absState Cap)
  have hsum := absState_count_sum hA
  have hcap : (runOps (initState Cap) ops).Cap = Cap := runOps_Cap ops (initState Cap)
  refine ⟨?_, rfl, rfl⟩
  unfold SchedState.getEventFreeCapacity SchedState.getEventCount
  omega

/-- C3: for every `addEvent(priority, handler, payload)` call with the free
list non-empty, the slot at the head of the free list is removed from the
free list, its handler and payload fields are set to the given values, and
it is appended at the tail of the ready list of that priority; no other
slot's event content and no other queue is modified (the only writes outside
the moved slot are the link words of its two new neighbours, as specified
for the O(1) list primitives). -/
theorem C3_addEvent_contract {s : SchedState} {A : Queues} {i : Nat} {bl : List Nat}
    (hA : absState s A) (hbl : A.blank = i :: bl) (p : EventPriority)
    (h : P_EventHandler) (a : EventArg) :
    absState (s.addEvent p h a)
      ((A.setChain .brank bl).setChain (.level p) (A.ready p ++ [i])) ∧
    (s.addEvent p h a).que_handler i = h ∧
    (s.addEvent p h a).que_arg i = a ∧
    (∀ j, j ≠ i → (s.addEvent p h a).que_handler j = s.que_handler j ∧
      (s.addEvent p h a).que_arg j = s.que_arg j) ∧
    (∀ p', p' ≠ p → (s.addEvent p h a).eventQue p' = s.eventQue p') ∧
    (s.addEvent p h a).brankQue.count = bl.length :=
  have H := addEvent_spec hA hbl p h a
  ⟨H.1, H.2.1, H.2.2.1, H.2.2.2.1, H.2.2.2.2.1, H.2.2.2.2.2.1⟩

/-- Witness for C3 at a concrete input: the two-slot arena, first
registration takes slot 0 and stores handler 5 with payload 7. -/
theorem C3_addEvent_contract_witness :
    absState (initState 2) (initQueues 2) ∧
    (initQueues 2).blank = 0 :: [1] ∧
    ((initState 2).addEvent .HIGHEST 5 7).que_handler 0 = 5 ∧
    ((initState 2).addEvent .HIGHEST 5 7).que_arg 0 = 7 := by
  refine ⟨initState_absState 2, by decide, ?_, ?_⟩
  · exact (@C3_addEvent_contract (initState 2) (initQueues 2) 0 [1]
      (initState_absState 2) (by decide) .HIGHEST 5 7).2.1
  · exact (@C3_addEvent_contract (initState 2) (initQueues 2) 0 [1]
      (initState_absState 2) (by decide) .HIGHEST 5 7).2.2.1

/-- C5: `dequeueFromAbsoluteIndex(queue, i)`, for a queue whose chain is
l1 ++ i :: l2, removes exactly the slot at arena index i by splicing its
neighbours together, fixes `firstIndex`/`lastIndex` when i was an endpoint,
decrements the count, returns i, and leaves every other queue untouched.
The claim additionally asserts this for every Capacity up to 255 usable
slots, but the declared parameter type at src/Scheduler.hpp:164 is `int8_t`,
which cannot represent arena indices 128..254: for example index 150 arrives
as `int8OfNat 150 = -106`, contradicting the 8-bit unsigned index type
`EventQueIndex` documented to support up to 255 slots. -/
theorem C5_dequeueFromAbsoluteIndex_splice {s : SchedState} {qi : QueueId}
    {l1 l2 : List Nat} {i : Nat}
    (hq : queueIsAt s qi (l1 ++ i :: l2)) (hnd : (l1 ++ i :: l2).Nodup) :
    ((s.dequeueFromAbsoluteIndex qi i).1 = i ∧
     queueIsAt (s.dequeueFromAbsoluteIndex qi i).2 qi (l1 ++ l2) ∧
     ((s.dequeueFromAbsoluteIndex qi i).2.getQ qi).count = (s.getQ qi).count - 1 ∧
     (∀ qi', qi' ≠ qi → (s.dequeueFromAbsoluteIndex qi i).2.getQ qi' = s.getQ qi') ∧
     (s.dequeueFromAbsoluteIndex qi i).2.que_handler = s.que_handler ∧
     (s.dequeueFromAbsoluteIndex qi i).2.que_arg = s.que_arg) ∧
    int8OfNat 150 = -106 := by
  obtain ⟨F1, F2, F3, F4, _, _, F7, _⟩ := dequeueFromAbsoluteIndex_spec hq hnd
  refine ⟨⟨F1, F2, ?_, F7, F3, F4⟩, by decide⟩
  have h1 : ((s.dequeueFromAbsoluteIndex qi i).2.getQ qi).count = (l1 ++ l2).length :=
    F2.1
  have h2 : (s.getQ qi).count = (l1 ++ i :: l2).length := hq.1
  rw [h1, h2]
  simp only [List.length_append, List.length_cons]
  omega

/-- Witness for C5 at a concrete input: a three-element chain [0, 1, 2] at
priority HIGHEST; removing the middle slot 1 returns 1 and leaves the chain
[0, 2]. -/
theorem C5_dequeueFromAbsoluteIndex_splice_witness :
    queueIsAt
      (runOps (initState 3) [.add .HIGHEST 1 0, .add .HIGHEST 2 0, .add .HIGHEST 3 0])
      (.level .HIGHEST) ([0] ++ 1 :: [2]) ∧
    (([0] ++ 1 :: [2] : List Nat)).Nodup ∧
    ((runOps (initState 3)
        [.add .HIGHEST 1 0, .add .HIGHEST 2 0, .add .HIGHEST 3 0]).dequeueFromAbsoluteIndex
      (.level .HIGHEST) 1).1 = 1 := by
  refine ⟨by decide, by decide, ?_⟩
  exact (@C5_dequeueFromAbsoluteIndex_splice
    (runOps (initState 3) [.add .HIGHEST 1 0, .add .HIGHEST 2 0, .add .HIGHEST 3 0])
    (.level .HIGHEST) [0] [2] 1 (by decide) (by decide)).1.1

/-- C10: `getEventFreeCapacity` and `getEventCount` are pure read-only
queries: modelled (from the spec, the bodies being absent) as value-only
functions — matching their declarations, which return `EventQueIndex` and
take no mutable access — whose results are computed from the queue headers
alone: two states agreeing on the five headers give the same answers
whatever their slot arrays hold, the free-capacity query returns the blank
queue's count, and the count query returns the sum of the four ready-list
counts; no scheduler state is modified (the model returns no state). -/
theorem C10_queries_pure (s t : SchedState)
    (hb : s.brankQue = t.brankQue) (he : ∀ p, s.eventQue p = t.eventQue p) :
    s.getEventFreeCapacity = t.getEventFreeCapacity ∧
    s.getEventCount = t.getEventCount ∧
    s.getEventFreeCapacity = s.brankQue.count ∧
    s.getEventCount = (s.eventQue .HIGHEST).count + (s.eventQue .MIDHIGH).count +
      (s.eventQue .MIDLOW).count + (s.eventQue .LOWEST).count := by
  refine ⟨?_, ?_, rfl, rfl⟩
  · unfold SchedState.getEventFreeCapacity
    rw [hb]
  · unfold SchedState.getEventCount
    rw [he .HIGHEST, he .MIDHIGH, he .MIDLOW, he .LOWEST]

/-- Witness for C10 at a concrete input: two states with the same headers
but different slot arrays give the same query answers. -/
theorem C10_queries_pure_witness :
    (initState 2).brankQue = ((initState 2).setHandler 0 9).brankQue ∧
    (∀ p, (initState 2).eventQue p = ((initState 2).setHandler 0 9).eventQue p) ∧
    (initState 2).getEventFreeCapacity =
      ((initState 2).setHandler 0 9).getEventFreeCapacity := by
  refine ⟨rfl, fun p => rfl, ?_⟩
  exact (C10_queries_pure (initState 2) ((initState 2).setHandler 0 9) rfl
    (fun p => rfl)).1

/-- C7: every return of a slot to the free list inserts it at the head
(shown here on the dispatch path, which frees via
`enqueueToHeadOfBrankQueue`), and `addEvent` acquires the head of the free
list, so the most recently freed slot is the first one reused by the next
registration; the handler and payload stored in the reacquired slot are
fully overwritten by the new registration, so no stale handler or payload
from a previous occupancy can be delivered. -/
theorem C7_freelist_lifo_reuse {s : SchedState} {A : Queues} {p : EventPriority}
    {i : Nat} {l : List Nat}
    (hA : absState s A) (hp : s.pickQueue = some p) (hc : A.ready p = i :: l)
    (p' : EventPriority) (h' : P_EventHandler) (a' : EventArg) :
    s.dispatchStep.2.brankQue.firstIndex = i ∧
    (∃ A1, absState s.dispatchStep.2 A1 ∧ A1.blank = i :: A.blank ∧
      ∃ A2, absState (s.dispatchStep.2.addEvent p' h' a') A2 ∧
        A2.blank = A.blank ∧ A2.ready p' = A1.ready p' ++ [i]) ∧
    (s.dispatchStep.2.addEvent p' h' a').que_handler i = h' ∧
    (s.dispatchStep.2.addEvent p' h' a').que_arg i = a' := by
  obtain ⟨_, hD2, hDfirst, _, _, _⟩ := dispatchStep_spec hA hp hc
  have hA1blank : ((A.setChain (.level p) l).setChain .brank (i :: A.blank)).blank =
      i :: A.blank := rfl
  obtain ⟨hE1, hE2, hE3, _, _, _, _⟩ := addEvent_spec hD2 hA1blank p' h' a'
  refine ⟨hDfirst, ⟨_, hD2, hA1blank, _, hE1, ?_, ?_⟩, hE2, hE3⟩
  · show ((((A.setChain (.level p) l).setChain .brank (i :: A.blank)).setChain .brank
      A.blank).setChain (.level p')
        (((A.setChain (.level p) l).setChain .brank (i :: A.blank)).ready p' ++ [i])).blank =
      A.blank
    have h1 := chain_setChain_ne
      ((((A.setChain (.level p) l).setChain .brank (i :: A.blank)).setChain .brank A.blank))
      (((A.setChain (.level p) l).setChain .brank (i :: A.blank)).ready p' ++ [i])
      (show QueueId.brank ≠ QueueId.level p' by simp)
    have h2 := chain_setChain_same
      (((A.setChain (.level p) l).setChain .brank (i :: A.blank))) QueueId.brank A.blank
    exact h1.trans h2
  · exact chain_setChain_same _ (QueueId.level p') _

/-- Witness for C7 at a concrete input: capacity 2, one MIDLOW event in slot
0; dispatching frees slot 0 to the head of the free list and the next
registration reuses slot 0 with the new handler 6 and payload 8. -/
theorem C7_freelist_lifo_reuse_witness :
    absState (runOps (initState 2) [.add .MIDLOW 4 9]) ⟨[1], [], [], [0], []⟩ ∧
    (runOps (initState 2) [.add .MIDLOW 4 9]).pickQueue = some .MIDLOW ∧
    ((runOps (initState 2) [.add .MIDLOW 4 9]).dispatchStep.2.addEvent .HIGHEST 6
      8).que_handler 0 = 6 := by
  refine ⟨by decide, by decide, ?_⟩
  exact (@C7_freelist_lifo_reuse (runOps (initState 2) [.add .MIDLOW 4 9])
    ⟨[1], [], [], [0], []⟩ .MIDLOW 0 [] (by decide) (by decide) (by decide)
    .HIGHEST 6 8).2.2.1

/-- C8: in every dispatch-loop iteration that finds a non-empty ready list,
the selected slot is dequeued from the head of the highest-priority
non-empty list, its handler and payload are copied out for invocation, and
the slot is returned to the free list strictly before the handler is
invoked: in the state handed to the handler the freed slot is already the
head of the free list, so an `addEvent` made from inside that handler
reacquires it. -/
theorem C8_slot_freed_before_invoke {s : SchedState} {A : Queues}
    {p : EventPriority} {i : Nat} {l : List Nat}
    (hA : absState s A) (hne : (s.eventQue p).count ≠ 0)
    (hmin : ∀ p2, p2.rank < p.rank → (s.eventQue p2).count = 0)
    (hc : A.ready p = i :: l) :
    s.dispatchStep.1 = some (p, s.que_handler i, s.que_arg i) ∧
    s.dispatchStep.2.brankQue.firstIndex = i ∧
    (∃ A1, absState s.dispatchStep.2 A1 ∧ A1.blank = i :: A.blank ∧
      A1.ready p = l) ∧
    (∀ p' h' a', (s.dispatchStep.2.addEvent p' h' a').que_handler i = h' ∧
      (s.dispatchStep.2.addEvent p' h' a').que_arg i = a') := by
  have hp : s.pickQueue = some p := pickQueue_eq_some hne hmin
  obtain ⟨hD1, hD2, hDfirst, _, _, _⟩ := dispatchStep_spec hA hp hc
  have hA1blank : ((A.setChain (.level p) l).setChain .brank (i :: A.blank)).blank =
      i :: A.blank := rfl
  refine ⟨hD1, hDfirst, ⟨_, hD2, hA1blank, ?_⟩, ?_⟩
  · have h1 := chain_setChain_ne (A.setChain (.level p) l) (i :: A.blank)
      (show QueueId.level p ≠ QueueId.brank by simp)
    have h2 := chain_setChain_same A (QueueId.level p) l
    exact h1.trans h2
  · intro p' h' a'
    obtain ⟨_, hE2, hE3, _, _, _, _⟩ := addEvent_spec hD2 hA1blank p' h' a'
    exact ⟨hE2, hE3⟩

/-- Witness for C8 at a concrete input: capacity 2, one MIDLOW event with
handler 4 in slot 0; the iteration emits it and the handler-run state has
slot 0 at the head of the free list. -/
theorem C8_slot_freed_before_invoke_witness :
    absState (runOps (initState 2) [.add .MIDLOW 4 9]) ⟨[1], [], [], [0], []⟩ ∧
    ((runOps (initState 2) [.add .MIDLOW 4 9]).eventQue .MIDLOW).count ≠ 0 ∧
    (runOps (initState 2) [.add .MIDLOW 4 9]).dispatchStep.2.brankQue.firstIndex = 0 := by
  refine ⟨by decide, by decide, ?_⟩
  exact (@C8_slot_freed_before_invoke (runOps (initState 2) [.add .MIDLOW 4 9])
    ⟨[1], [], [], [0], []⟩ .MIDLOW 0 [] (by decide) (by decide)
    (fun p2 hr => by cases p2 <;> simp [EventPriority.rank] at hr ⊢ <;> decide)
    (by decide)).2.1

/-- C4: `deleteEvent(h)` removes exactly the earliest still-queued
registration of h, scanning the four ready lists in priority order (and
`deleteEvent(priority, h)` the earliest within that one level), returns the
removed slot to the head of the free list without invoking the handler
(cancellation produces no dispatch; the payload is discarded when the slot
is blanked), and leaves every other queued event and their relative order
unchanged (the level's chain becomes l1 ++ l2 and all other chains are
untouched); if no slot's handler equals h, the call is a no-op and the
state is unchanged. -/
theorem C4_deleteEvent_contract {s : SchedState} {A : Queues} (hA : absState s A)
    (h : P_EventHandler) :
    ((∀ p, ∀ x ∈ A.ready p, ¬ s.que_handler x = h) → s.deleteEvent h = s) ∧
    (∀ p, (∀ x ∈ A.ready p, ¬ s.que_handler x = h) → s.deleteEventPrio p h = s) ∧
    (∀ p l1 j l2,
      (∀ p2, p2.rank < p.rank → ∀ x ∈ A.ready p2, ¬ s.que_handler x = h) →
      A.ready p = l1 ++ j :: l2 →
      (∀ x ∈ l1, ¬ s.que_handler x = h) → s.que_handler j = h →
      absState (s.deleteEvent h)
        ((A.setChain (.level p) (l1 ++ l2)).setChain .brank (j :: A.blank)) ∧
      (s.deleteEvent h).brankQue.firstIndex = j ∧
      (∀ x, x ≠ j → (s.deleteEvent h).que_handler x = s.que_handler x ∧
        (s.deleteEvent h).que_arg x = s.que_arg x)) ∧
    (∀ p l1 j l2,
      A.ready p = l1 ++ j :: l2 →
      (∀ x ∈ l1, ¬ s.que_handler x = h) → s.que_handler j = h →
      absState (s.deleteEventPrio p h)
        ((A.setChain (.level p) (l1 ++ l2)).setChain .brank (j :: A.blank)) ∧
      (s.deleteEventPrio p h).brankQue.firstIndex = j ∧
      (∀ x, x ≠ j → (s.deleteEventPrio p h).que_handler x = s.que_handler x ∧
        (s.deleteEventPrio p h).que_arg x = s.que_arg x)) := by
  refine ⟨?_, ?_, ?_, ?_⟩
  · intro hno
    exact deleteEvent_none hA h hno
  · intro p hno
    exact deleteEventQ_none hA h hno
  · intro p l1 j l2 hhigh hchain hl1 hj
    have hsome : ∃ x ∈ A.ready p, s.que_handler x = h := by
      rw [hchain]
      exact ⟨j, by simp, hj⟩
    have hsel := deleteEvent_selects hA h hhigh hsome
    have hfound := deleteEventQ_found hA h (show QueueId.level p ≠ QueueId.brank by simp)
      hchain hl1 hj
    rw [hsel]
    exact ⟨hfound.1, hfound.2.2.1, hfound.2.1⟩
  · intro p l1 j l2 hchain hl1 hj
    have hfound := deleteEventQ_found hA h (show QueueId.level p ≠ QueueId.brank by simp)
      hchain hl1 hj
    exact ⟨hfound.1, hfound.2.2.1, hfound.2.1⟩

/-- Witness for C4 at a concrete input: capacity 3 with two MIDLOW events
(handlers 7 in slot 0 and 8 in slot 1); deleting handler 8 removes slot 1
and puts it at the head of the free list, and deleting an absent handler 9
leaves the state unchanged. -/
theorem C4_deleteEvent_contract_witness :
    absState (runOps (initState 3) [.add .MIDLOW 7 0, .add .MIDLOW 8 0])
      ⟨[2], [], [], [0, 1], []⟩ ∧
    ((runOps (initState 3) [.add .MIDLOW 7 0, .add .MIDLOW 8 0]).deleteEvent
      8).brankQue.firstIndex = 1 ∧
    (runOps (initState 3) [.add .MIDLOW 7 0, .add .MIDLOW 8 0]).deleteEvent 9 =
      runOps (initState 3) [.add .MIDLOW 7 0, .add .MIDLOW 8 0] := by
  refine ⟨by decide, ?_, ?_⟩
  · exact ((@C4_deleteEvent_contract
      (runOps (initState 3) [.add .MIDLOW 7 0, .add .MIDLOW 8 0])
      ⟨[2], [], [], [0, 1], []⟩ (by decide) 8).2.2.1 .MIDLOW [0] 1 []
      (fun p2 hr => by cases p2 <;> simp [EventPriority.rank] at hr ⊢ <;> decide)
      (by decide) (by decide) (by decide)).2.1
  · exact (@C4_deleteEvent_contract
      (runOps (initState 3) [.add .MIDLOW 7 0, .add .MIDLOW 8 0])
      ⟨[2], [], [], [0, 1], []⟩ (by decide) 9).1
      (fun p x hx he => by
        cases p <;> simp [Queues.ready] at hx <;> rcases hx with rfl | rfl <;>
          revert he <;> decide)

/-! ### Run records for the ordering claims -/

/-- Whether an operation is a registration or a dispatch iteration (the
ordering claim quantifies over interleavings of these two kinds). -/
def Op.isAddOrDisp : Op → Bool
  | .add _ _ _ => true
  | .disp => true
  | _ => false

/-- A run record: the scheduler state, the trace of dispatched events
(priority, handler, payload, in dispatch order), and the per-priority
sequences of successful registrations, in registration order. -/
structure RunLog where
  st : SchedState
  trace : List (EventPriority × P_EventHandler × EventArg)
  regsH : List (P_EventHandler × EventArg)
  regsMH : List (P_EventHandler × EventArg)
  regsML : List (P_EventHandler × EventArg)
  regsL : List (P_EventHandler × EventArg)

/-- The registration record of one priority. -/
def RunLog.regs (L : RunLog) : EventPriority → List (P_EventHandler × EventArg)
  | .HIGHEST => L.regsH
  | .MIDHIGH => L.regsMH
  | .MIDLOW => L.regsML
  | .LOWEST => L.regsL

/-- Append one successful registration to the record of its priority. -/
def RunLog.pushReg (L : RunLog) : EventPriority → P_EventHandler × EventArg → RunLog
  | .HIGHEST, e => { L with regsH := L.regsH ++ [e] }
  | .MIDHIGH, e => { L with regsMH := L.regsMH ++ [e] }
  | .MIDLOW, e => { L with regsML := L.regsML ++ [e] }
  | .LOWEST, e => { L with regsL := L.regsL ++ [e] }

/-- One operation on a run record: the state moves by `SchedState.step`; a
registration made while the free list is non-empty is recorded; a dispatch
iteration appends its emitted event, if any, to the trace. -/
def stepLog (L : RunLog) : Op → RunLog
  | .add p h a =>
      if L.st.brankQue.count = 0 then { L with st := L.st.addEvent p h a }
      else ({ L with st := L.st.addEvent p h a }).pushReg p (h, a)
  | .del h => { L with st := L.st.deleteEvent h }
  | .delP p h => { L with st := L.st.deleteEventPrio p h }
  | .disp =>
      { L with st := L.st.dispatchStep.2,
               trace := L.trace ++ L.st.dispatchStep.1.toList }

/-- Run a finite operation sequence on a run record. -/
def runLog (L : RunLog) (ops : List Op) : RunLog := ops.foldl stepLog L

/-- The run record of the freshly initialised scheduler. -/
def initLog (Cap : Nat) : RunLog := ⟨initState Cap, [], [], [], [], []⟩

/-- The subsequence of the trace dispatched at one priority, as
(handler, payload) pairs in dispatch order. -/
def traceAt (p : EventPriority)
    (tr : List (EventPriority × P_EventHandler × EventArg)) :
    List (P_EventHandler × EventArg) :=
  (tr.filter (fun e => decide (e.1 = p))).map (fun e => e.2)

/-- The (handler, payload) contents of a chain of slots, in chain order. -/
def payloadMap (s : SchedState) (l : List Nat) : List (P_EventHandler × EventArg) :=
  l.map (fun i => (s.que_handler i, s.que_arg i))

theorem traceAt_append (p : EventPriority)
    (tr1 tr2 : List (EventPriority × P_EventHandler × EventArg)) :
    traceAt p (tr1 ++ tr2) = traceAt p tr1 ++ traceAt p tr2 := by
  simp [traceAt, List.filter_append]

theorem traceAt_single_same (p : EventPriority) (h : P_EventHandler) (a : EventArg) :
    traceAt p [(p, h, a)] = [(h, a)] := by
  simp [traceAt]

theorem traceAt_single_ne {p q : EventPriority} (h : P_EventHandler) (a : EventArg)
    (hne : q ≠ p) : traceAt p [(q, h, a)] = [] := by
  simp [traceAt, hne]

theorem payloadMap_append (s : SchedState) (l1 l2 : List Nat) :
    payloadMap s (l1 ++ l2) = payloadMap s l1 ++ payloadMap s l2 := by
  simp [payloadMap]

theorem payloadMap_congr {s s' : SchedState} :
    ∀ l : List Nat,
      (∀ x ∈ l, s'.que_handler x = s.que_handler x ∧ s'.que_arg x = s.que_arg x) →
      payloadMap s' l = payloadMap s l
  | [], _ => rfl
  | x :: t, hh => by
      have h1 := hh x (by simp)
      have h2 := payloadMap_congr t (fun y hy => hh y (by simp [hy]))
      simp only [payloadMap, List.map_cons] at h2 ⊢
      rw [h1.1, h1.2, h2]

theorem regs_with_st (L : RunLog) (X : SchedState) :
    ∀ p, ({ L with st := X } : RunLog).regs p = L.regs p := by
  intro p
  cases p <;> rfl

theorem regs_with_st_trace (L : RunLog) (X : SchedState)
    (T : List (EventPriority × P_EventHandler × EventArg)) :
    ∀ p, ({ L with st := X, trace := T } : RunLog).regs p = L.regs p := by
  intro p
  cases p <;> rfl

theorem regs_pushReg_same (L : RunLog) (p : EventPriority)
    (e : P_EventHandler × EventArg) : (L.pushReg p e).regs p = L.regs p ++ [e] := by
  cases p <;> rfl

theorem regs_pushReg_ne (L : RunLog) {p p' : EventPriority}
    (e : P_EventHandler × EventArg) (hne : p' ≠ p) :
    (L.pushReg p e).regs p' = L.regs p' := by
  cases p <;> cases p' <;> first | exact absurd rfl hne | rfl

theorem st_pushReg (L : RunLog) (p : EventPriority) (e : P_EventHandler × EventArg) :
    (L.pushReg p e).st = L.st := by
  cases p <;> rfl

theorem trace_pushReg (L : RunLog) (p : EventPriority)
    (e : P_EventHandler × EventArg) : (L.pushReg p e).trace = L.trace := by
  cases p <;> rfl

theorem ready_setChain2_same (A : Queues) (qi : QueueId) (p : EventPriority)
    (u v : List Nat) (hqi : qi ≠ QueueId.level p) :
    ((A.setChain qi u).setChain (.level p) v).ready p = v :=
  chain_setChain_same (A.setChain qi u) (.level p) v

theorem ready_setChain2_ne (A : Queues) (qi : QueueId) (p p' : EventPriority)
    (u v : List Nat) (hqi : qi ≠ QueueId.level p') (hp : p' ≠ p) :
    ((A.setChain qi u).setChain (.level p) v).ready p' = A.ready p' := by
  have h1 := chain_setChain_ne (A.setChain qi u) v
    (show QueueId.level p' ≠ QueueId.level p from fun he => hp (by injection he))
  have h2 := chain_setChain_ne A u (show QueueId.level p' ≠ qi from fun he => hqi he.symm)
  exact h1.trans h2

theorem ready_setChain2_brank (A : Queues) (p p' : EventPriority) (u v : List Nat)
    (hp : p' ≠ p) :
    ((A.setChain (.level p) u).setChain .brank v).ready p' = A.ready p' := by
  have h1 := chain_setChain_ne (A.setChain (.level p) u) v
    (show QueueId.level p' ≠ QueueId.brank by simp)
  have h2 := chain_setChain_ne A u
    (show QueueId.level p' ≠ QueueId.level p from fun he => hp (by injection he))
  exact h1.trans h2

theorem ready_setChain_brank_same (A : Queues) (p : EventPriority) (u v : List Nat) :
    ((A.setChain (.level p) u).setChain .brank v).ready p = u := by
  have h1 := chain_setChain_ne (A.setChain (.level p) u) v
    (show QueueId.level p ≠ QueueId.brank by simp)
  have h2 := chain_setChain_same A (QueueId.level p) u
  exact h1.trans h2

/-- The coupling invariant of a run record: the state satisfies the arena
invariant, and for each priority, the registration record equals the events
already dispatched at that priority followed by the (handler, payload)
contents of its ready chain, in order. -/
def LogInv (L : RunLog) (A : Queues) : Prop :=
  absState L.st A ∧
  ∀ p, L.regs p = traceAt p L.trace ++ payloadMap L.st (A.ready p)

theorem stepLog_st (L : RunLog) (o : Op) : (stepLog L o).st = L.st.step o := by
  cases o with
  | add p h a =>
      show (if L.st.brankQue.count = 0 then _ else _ : RunLog).st = _
      split
      · rfl
      · rw [st_pushReg]
        rfl
  | del h => rfl
  | delP p h => rfl
  | disp => rfl

theorem runLog_st : ∀ (ops : List Op) (L : RunLog),
    (runLog L ops).st = runOps L.st ops
  | [], _ => rfl
  | o :: ops, L => by
      show (runLog (stepLog L o) ops).st = runOps (L.st.step o) ops
      rw [runLog_st ops (stepLog L o), stepLog_st]

theorem stepLog_inv {L : RunLog} {A : Queues} (hInv : LogInv L A) :
    ∀ o : Op, o.isAddOrDisp = true → ∃ A', LogInv (stepLog L o) A'
  | .del _, ho => by simp [Op.isAddOrDisp] at ho
  | .delP _ _, ho => by simp [Op.isAddOrDisp] at ho
  | .add p h a, _ => by
      obtain ⟨hA, hregs⟩ := hInv
      rcases hbl : A.blank with _ | ⟨i, bl⟩
      · have hq := absState_queueIsAt hA .brank
        rw [show A.chain .brank = A.blank from rfl, hbl] at hq
        have hc : L.st.brankQue.count = 0 := by
          have h1 : (L.st.getQ .brank).count = ([] : List Nat).length := hq.1
          simpa [SchedState.getQ] using h1
        have hfix : L.st.addEvent p h a = L.st := addEvent_full p h a hc
        refine ⟨A, ?_, ?_⟩
        · show absState (stepLog L (.add p h a)).st A
          rw [stepLog_st]
          show absState (L.st.addEvent p h a) A
          rw [hfix]
          exact hA
        · intro p''
          show (stepLog L (.add p h a)).regs p'' =
            traceAt p'' (stepLog L (.add p h a)).trace ++
              payloadMap (stepLog L (.add p h a)).st (A.ready p'')
          simp only [stepLog, if_pos hc]
          rw [regs_with_st, hfix]
          exact hregs p''
      · have hq := absState_queueIsAt hA .brank
        rw [show A.chain .brank = A.blank from rfl, hbl] at hq
        have hc : ¬ L.st.brankQue.count = 0 := by
          have h1 : (L.st.getQ .brank).count = (i :: bl).length := hq.1
          simp only [SchedState.getQ] at h1
          simp [h1]
        obtain ⟨H1, H2, H3, H4, _, _, _⟩ := addEvent_spec hA hbl p h a
        have himem : i ∈ A.chain .brank := by
          rw [show A.chain .brank = A.blank from rfl, hbl]
          simp
        have hstep : stepLog L (.add p h a) =
            ({ L with st := L.st.addEvent p h a } : RunLog).pushReg p (h, a) := by
          simp only [stepLog, if_neg hc]
        refine ⟨(A.setChain .brank bl).setChain (.level p) (A.ready p ++ [i]), ?_, ?_⟩
        · show absState (stepLog L (.add p h a)).st _
          rw [hstep, st_pushReg]
          exact H1
        · intro p''
          rw [hstep]
          have htr : (({ L with st := L.st.addEvent p h a } : RunLog).pushReg p
              (h, a)).trace = L.trace := by
            rw [trace_pushReg]
          have hst : (({ L with st := L.st.addEvent p h a } : RunLog).pushReg p
              (h, a)).st = L.st.addEvent p h a := by
            rw [st_pushReg]
          rw [htr, hst]
          rcases eq_or_ne p'' p with rfl | hne
          · rw [regs_pushReg_same, regs_with_st,
              ready_setChain2_same A .brank p'' bl _ (by simp), payloadMap_append,
              hregs p'']
            have hpay : payloadMap (L.st.addEvent p'' h a) (A.ready p'') =
                payloadMap L.st (A.ready p'') := by
              refine payloadMap_congr _ (fun x hx => H4 x ?_)
              intro he
              exact absState_chain_disjoint hA
                (show QueueId.brank ≠ QueueId.level p'' by simp) himem (he ▸ hx)
            have hpay1 : payloadMap (L.st.addEvent p'' h a) [i] = [(h, a)] := by
              simp [payloadMap, H2, H3]
            rw [hpay, hpay1, List.append_assoc]
          · rw [regs_pushReg_ne _ _ hne, regs_with_st,
              ready_setChain2_ne A .brank p p'' bl _ (by simp) hne, hregs p'']
            have hpay : payloadMap (L.st.addEvent p h a) (A.ready p'') =
                payloadMap L.st (A.ready p'') := by
              refine payloadMap_congr _ (fun x hx => H4 x ?_)
              intro he
              exact absState_chain_disjoint hA
                (show QueueId.brank ≠ QueueId.level p'' by simp) himem (he ▸ hx)
            rw [hpay]
  | .disp, _ => by
      obtain ⟨hA, hregs⟩ := hInv
      rcases hp : L.st.pickQueue with _ | p
      · have hfix := dispatchStep_none hp
        refine ⟨A, ?_, ?_⟩
        · show absState (stepLog L .disp).st A
          rw [stepLog_st]
          show absState L.st.dispatchStep.2 A
          rw [hfix]
          exact hA
        · intro p''
          show (stepLog L .disp).regs p'' = _
          simp only [stepLog]
          rw [regs_with_st_trace, hfix]
          show L.regs p'' = traceAt p'' (L.trace ++ (none : Option
            (EventPriority × P_EventHandler × EventArg)).toList) ++ payloadMap L.st (A.ready p'')
          rw [show (none : Option (EventPriority × P_EventHandler × EventArg)).toList =
            [] from rfl, List.append_nil]
          exact hregs p''
      · have hcne := (pickQueue_spec hp).1
        rcases hrc : A.ready p with _ | ⟨i, l⟩
        · exfalso
          have hq := absState_queueIsAt hA (.level p)
          rw [show A.chain (.level p) = A.ready p from rfl, hrc] at hq
          have h1 : (L.st.getQ (.level p)).count = ([] : List Nat).length := hq.1
          simp only [SchedState.getQ, List.length_nil] at h1
          exact hcne h1
        · obtain ⟨D1, D2, _, _, D5, _⟩ := dispatchStep_spec hA hp hrc
          have himem : i ∈ A.chain (.level p) := by
            rw [show A.chain (.level p) = A.ready p from rfl, hrc]
            simp
          have hndp : (i :: l).Nodup := by
            have := absState_chain_nodup hA (.level p)
            rwa [show A.chain (.level p) = A.ready p from rfl, hrc] at this
          have hil : i ∉ l := (List.nodup_cons.mp hndp).1
          refine ⟨(A.setChain (.level p) l).setChain .brank (i :: A.blank), ?_, ?_⟩
          · show absState (stepLog L .disp).st _
            rw [stepLog_st]
            exact D2
          · intro p''
            show (stepLog L .disp).regs p'' = _
            simp only [stepLog]
            rw [regs_with_st_trace]
            show L.regs p'' = traceAt p'' (L.trace ++ L.st.dispatchStep.1.toList) ++
              payloadMap L.st.dispatchStep.2 _
            rw [D1, show (some (p, L.st.que_handler i, L.st.que_arg i)).toList =
              [(p, L.st.que_handler i, L.st.que_arg i)] from rfl, traceAt_append]
            rcases eq_or_ne p'' p with rfl | hne
            · rw [traceAt_single_same, ready_setChain_brank_same A p'' l (i :: A.blank),
                hregs p'', hrc]
              have hpay : payloadMap L.st.dispatchStep.2 l = payloadMap L.st l :=
                payloadMap_congr _ (fun x hx => D5 x (fun he => hil (he ▸ hx)))
              rw [hpay,
                show payloadMap L.st (i :: l) =
                  (L.st.que_handler i, L.st.que_arg i) :: payloadMap L.st l from rfl]
              simp
            · rw [traceAt_single_ne _ _ (Ne.symm hne), List.append_nil,
                ready_setChain2_brank A p p'' l (i :: A.blank) hne, hregs p'']
              have hpay : payloadMap L.st.dispatchStep.2 (A.ready p'') =
                  payloadMap L.st (A.ready p'') := by
                refine payloadMap_congr _ (fun x hx => D5 x ?_)
                intro he
                exact absState_chain_disjoint hA
                  (show QueueId.level p ≠ QueueId.level p'' from fun h2 => hne (by
                    injection h2 with h3
                    exact h3.symm)) himem (he ▸ hx)
              rw [hpay]

theorem runLog_inv : ∀ (ops : List Op), (∀ o ∈ ops, o.isAddOrDisp = true) →
    ∀ (L : RunLog) (A : Queues), LogInv L A → ∃ A', LogInv (runLog L ops) A'
  | [], _, _, A, hInv => ⟨A, hInv⟩
  | o :: ops, hops, L, A, hInv => by
      obtain ⟨A1, hA1⟩ := stepLog_inv hInv o (hops o (by simp))
      exact runLog_inv ops (fun o' ho' => hops o' (by simp [ho'])) (stepLog L o) A1 hA1

theorem initLog_inv (Cap : Nat) : LogInv (initLog Cap) (initQueues Cap) := by
  refine ⟨initState_absState Cap, fun p => ?_⟩
  cases p <;> rfl

theorem dispatch_emits_min {s : SchedState} {p : EventPriority}
    {h : P_EventHandler} {a : EventArg}
    (he : s.dispatchStep.1 = some (p, h, a)) :
    ∀ p', p'.rank < p.rank → (s.eventQue p').count = 0 ∧
      ∀ A, absState s A → A.ready p' = [] := by
  rcases hp : s.pickQueue with _ | p0
  · rw [dispatchStep_none hp] at he
    exact absurd he (by simp)
  · have h1 : s.dispatchStep.1 = some (p0,
        (s.dequeueFromHead (.level p0)).2.que_handler (s.dequeueFromHead (.level p0)).1,
        (s.dequeueFromHead (.level p0)).2.que_arg (s.dequeueFromHead (.level p0)).1) := by
      simp only [SchedState.dispatchStep, hp]
    rw [h1] at he
    have hpp : p0 = p := congrArg Prod.fst (Option.some_inj.mp he)
    subst hpp
    intro p' hr
    refine ⟨(pickQueue_spec hp).2 p' hr, ?_⟩
    intro A hA
    have hq := absState_queueIsAt hA (.level p')
    have hc := (pickQueue_spec hp).2 p' hr
    have h2 : (s.getQ (.level p')).count = (A.chain (.level p')).length := hq.1
    simp only [SchedState.getQ] at h2
    rw [hc] at h2
    exact List.length_eq_zero.mp h2.symm

set_option maxHeartbeats 1600000 in
/-- C2: for every interleaving of `addEvent` registrations across the four
priority levels with dispatch-loop iterations, (1) events registered at one
level are dispatched in registration order: the per-level dispatch sequence
is always a prefix of the per-level registration sequence; (2) dispatch
order is non-decreasing in priority rank among events simultaneously
pending: whenever an iteration emits an event of priority p, every
higher-priority ready queue is empty at that instant, both by its header
count and by its abstract chain; and (3) in particular a HIGHEST event
posted after a LOWEST event is dispatched before it. -/
theorem C2_priority_fifo_dispatch (Cap : Nat) (ops : List Op)
    (hops : ∀ o ∈ ops, o.isAddOrDisp = true) :
    (∀ p, traceAt p (runLog (initLog Cap) ops).trace <+:
      (runLog (initLog Cap) ops).regs p) ∧
    (∀ k p h a,
      (runOps (initState Cap) (List.take k ops)).dispatchStep.1 = some (p, h, a) →
      ∀ p', p'.rank < p.rank →
        ((runOps (initState Cap) (List.take k ops)).eventQue p').count = 0 ∧
        ∀ A, absState (runOps (initState Cap) (List.take k ops)) A →
          A.ready p' = []) ∧
    (runLog (initLog 2) [.add .LOWEST 1 11, .add .HIGHEST 2 12, .disp, .disp]).trace =
      [(.HIGHEST, 2, 12), (.LOWEST, 1, 11)] := by
  refine ⟨?_, ?_, ?_⟩
  · obtain ⟨A', hInv⟩ :=
      runLog_inv ops hops (initLog Cap) (initQueues Cap) (initLog_inv Cap)
    intro p
    exact ⟨payloadMap (runLog (initLog Cap) ops).st (A'.ready p), (hInv.2 p).symm⟩
  · intro k p h a he p' hr
    exact dispatch_emits_min he p' hr
  · decide

/-- Witness for C2 at a concrete input: one MIDLOW then one HIGHEST
registration followed by two dispatch iterations. -/
theorem C2_priority_fifo_dispatch_witness :
    (∀ o ∈ ([.add .MIDLOW 1 11, .add .HIGHEST 4 14, .disp, .disp] : List Op),
      o.isAddOrDisp = true) ∧
    traceAt .MIDLOW (runLog (initLog 4)
        [.add .MIDLOW 1 11, .add .HIGHEST 4 14, .disp, .disp]).trace <+:
      (runLog (initLog 4)
        [.add .MIDLOW 1 11, .add .HIGHEST 4 14, .disp, .disp]).regs .MIDLOW := by
  refine ⟨by decide, ?_⟩
  exact (C2_priority_fifo_dispatch 4
    [.add .MIDLOW 1 11, .add .HIGHEST 4 14, .disp, .disp] (by decide)).1 .MIDLOW
